import Mathlib

/-!
Verification of the PAI-RAG multi-retriever fusion engine and multi-modal
query engine, a shallow embedding of
`src/pai_rag/integrations/retrievers/fusion_retriever.py` and
`src/pai_rag/integrations/query_engine/multi_modal_query_engine.py`.

Python `float` is modelled by `ℚ` (exact arithmetic), `Optional[float]` by
`Option ℚ`, and Python statements that can raise by `Except PyErr`.
Python `dict` (insertion-ordered) is modelled by association lists with
update-in-place / append-at-end operations.  `sorted(..., reverse=True)` /
`list.sort(..., reverse=True)` (timsort, stable) is modelled by the stable
insertion sort with the non-strict descending comparator.
-/

namespace PaiRag

/-- Python runtime exceptions that the embedded code can raise. -/
inductive PyErr where
  | typeError
  | valueError
  | zeroDivisionError
  | indexError
  | attributeError
  | importError
deriving DecidableEq, Repr

/-! ## Stable descending sort (Python `sorted(key=..., reverse=True)`) -/

/-- The comparator of a stable descending sort by `key`: `a` may stay before
`b` iff `key b ≤ key a`; with non-strict `≤`, equal keys keep their original
order, exactly as Python's stable `sorted(..., reverse=True)`. -/
def descBy (key : α → ℚ) (a b : α) : Prop := key b ≤ key a

instance (key : α → ℚ) : DecidableRel (descBy key) :=
  fun a b => inferInstanceAs (Decidable (key b ≤ key a))

instance (key : α → ℚ) : IsTotal α (descBy key) :=
  ⟨fun a b => le_total (key b) (key a)⟩

instance (key : α → ℚ) : IsTrans α (descBy key) :=
  ⟨fun _ _ _ h1 h2 => le_trans h2 h1⟩

/-- Python `sorted(xs, key=key, reverse=True)`: stable, descending by `key`. -/
def pySortDesc (key : α → ℚ) (l : List α) : List α :=
  List.insertionSort (descBy key) l

theorem pySortDesc_perm (key : α → ℚ) (l : List α) :
    (pySortDesc key l).Perm l :=
  List.perm_insertionSort _ l

theorem pySortDesc_sorted (key : α → ℚ) (l : List α) :
    (pySortDesc key l).Pairwise (fun a b => key b ≤ key a) :=
  List.sorted_insertionSort (descBy key) l

theorem orderedInsert_map_of_iff {key : α → ℚ} {key' : β → ℚ} {g : β → α}
    (hg : ∀ a b : β, key (g b) ≤ key (g a) ↔ key' b ≤ key' a) (a : β) :
    ∀ l : List β,
      List.orderedInsert (descBy key) (g a) (l.map g) =
        (List.orderedInsert (descBy key') a l).map g := by
  intro l
  induction l with
  | nil => rfl
  | cons b t ih =>
      by_cases h : descBy key' a b
      · have h' : descBy key (g a) (g b) := (hg a b).mpr h
        simp [List.orderedInsert, h, h']
      · have h' : ¬ descBy key (g a) (g b) := fun hc => h ((hg a b).mp hc)
        simp [List.orderedInsert, h, h', ih]

/-- A key-comparison-preserving map commutes with the stable sort. -/
theorem pySortDesc_map {key : α → ℚ} {key' : β → ℚ} {g : β → α}
    (hg : ∀ a b : β, key (g b) ≤ key (g a) ↔ key' b ≤ key' a) (l : List β) :
    pySortDesc key (l.map g) = (pySortDesc key' l).map g := by
  induction l with
  | nil => rfl
  | cons b t ih =>
      show List.orderedInsert _ (g b) (pySortDesc key (t.map g)) = _
      rw [ih]
      exact orderedInsert_map_of_iff hg b _

/-! ## Insertion-ordered dictionaries (Python `dict`) -/

/-- `d[k] = v`: replace the value at `k` in place if present, else append. -/
def dictPut [DecidableEq κ] (d : List (κ × ν)) (k : κ) (v : ν) : List (κ × ν) :=
  match d with
  | [] => [(k, v)]
  | e :: rest => if e.1 = k then (k, v) :: rest else e :: dictPut rest k v

/-- `d.get(k)` (`None` when absent). -/
def dictGet? [DecidableEq κ] (d : List (κ × ν)) (k : κ) : Option ν :=
  match d with
  | [] => none
  | e :: rest => if e.1 = k then some e.2 else dictGet? rest k

/-- `d[k] = d.get(k, 0.0) + v` on a float-valued dict, as in the
`fused_scores` accumulation of `_reciprocal_rerank_fusion`. -/
def dictUpdAdd [DecidableEq κ] (d : List (κ × ℚ)) (k : κ) (v : ℚ) :
    List (κ × ℚ) :=
  match d with
  | [] => [(k, v)]
  | e :: rest => if e.1 = k then (e.1, e.2 + v) :: rest else e :: dictUpdAdd rest k v

/-- `d.keys()` in insertion order. -/
def dictKeys (d : List (κ × ν)) : List κ := d.map Prod.fst

/-- `d.values()` in insertion order. -/
def dictValues (d : List (κ × ν)) : List ν := d.map Prod.snd

/-! ## Python float / Optional-float primitives -/

/-- Python `a < b` on `Optional[float]` values: comparing `None` with
anything raises `TypeError`. -/
def pyLt : Option ℚ → Option ℚ → Except PyErr Bool
  | some a, some b => .ok (decide (a < b))
  | _, _ => .error .typeError

/-- Python `a > b` on `Optional[float]` values. -/
def pyGt : Option ℚ → Option ℚ → Except PyErr Bool
  | some a, some b => .ok (decide (b < a))
  | _, _ => .error .typeError

/-- Python `a - b` on `Optional[float]` values. -/
def pySub : Option ℚ → Option ℚ → Except PyErr ℚ
  | some a, some b => .ok (a - b)
  | _, _ => .error .typeError

/-- Python `a + b` on `Optional[float]` values. -/
def pyAdd : Option ℚ → Option ℚ → Except PyErr ℚ
  | some a, some b => .ok (a + b)
  | _, _ => .error .typeError

/-- Python `a == b` on `Optional[float]` values: never raises; `None` equals
only `None`. -/
def pyEqO : Option ℚ → Option ℚ → Bool
  | some a, some b => a == b
  | none, none => true
  | _, _ => false

/-- Python `a > 0` on an `Optional[float]`: raises on `None`. -/
def pyGtZero : Option ℚ → Except PyErr Bool
  | some a => .ok (decide (0 < a))
  | none => .error .typeError

/-- The loop of Python `min(xs)` once a current value is chosen:
`if item < current: current = item`. -/
def pyMinFold (cur : Option ℚ) : List (Option ℚ) → Except PyErr (Option ℚ)
  | [] => .ok cur
  | y :: ys => do
      let b ← pyLt y cur
      pyMinFold (if b then y else cur) ys

/-- Python `min(xs)` on a list of `Optional[float]`: `ValueError` on an empty
list; a singleton needs no comparison, so `min([None]) = None`. -/
def pyMin : List (Option ℚ) → Except PyErr (Option ℚ)
  | [] => .error .valueError
  | x :: xs => pyMinFold x xs

/-- The loop of Python `max(xs)`: `if item > current: current = item`. -/
def pyMaxFold (cur : Option ℚ) : List (Option ℚ) → Except PyErr (Option ℚ)
  | [] => .ok cur
  | y :: ys => do
      let b ← pyGt y cur
      pyMaxFold (if b then y else cur) ys

/-- Python `max(xs)` on a list of `Optional[float]`. -/
def pyMax : List (Option ℚ) → Except PyErr (Option ℚ)
  | [] => .error .valueError
  | x :: xs => pyMaxFold x xs

/-- Python `sum(xs)` starting from `0`: adding `None` raises `TypeError`. -/
def pySum (l : List (Option ℚ)) : Except PyErr ℚ :=
  l.foldlM
    (fun acc x =>
      match x with
      | some v => .ok (acc + v)
      | none => .error .typeError)
    0

/-- Python float division by an int count (`score /= num_queries`):
`ZeroDivisionError` when the count is zero. -/
def pyDivCount (v : ℚ) (n : ℕ) : Except PyErr ℚ :=
  if n = 0 then .error .zeroDivisionError else .ok (v / (n : ℚ))

/-- Python `xs[i]` on a float list: `IndexError` out of range. -/
def pyIndex (l : List ℚ) (i : ℕ) : Except PyErr ℚ :=
  match l.get? i with
  | some w => .ok w
  | none => .error .indexError

/-! ## Node model of the fusion retriever -/

/-- Embedding of a scored result node (`NodeWithScore` / `MyNodeWithScore`):
`content` is `node.get_content()`, `score` the `Optional[float]` score. -/
structure RNode where
  content : String
  score : Option ℚ
deriving DecidableEq, Repr

/-- The ranking key `lambda x: x.score or 0.0`: Python `or` maps a `None`
(and a zero) score to `0.0`, which on values equals `Option.getD 0`. -/
def rankKey (n : RNode) : ℚ := n.score.getD 0

/-- The per-invocation result mapping `Dict[Tuple[str, int], List[NodeWithScore]]`
keyed by `(query_str, retriever_index)`, in insertion order. -/
abbrev Results := List ((String × ℕ) × List RNode)

/-! ## `_reciprocal_rerank_fusion` (fusion_retriever.py lines 171-206) -/

/-- The constant `k = 60.0` of reciprocal rank fusion. -/
def rrf_k : ℚ := 60

/-- One iteration of the rank loop: given `(rank, node_with_score)` from
`enumerate(sorted(...))`, set `text_to_node[text] = node_with_score` and add
`1.0 / (rank + k)` to `fused_scores[text]`. -/
def rrfStep (acc : List (String × ℚ) × List (String × RNode)) (p : ℕ × RNode) :
    List (String × ℚ) × List (String × RNode) :=
  (dictUpdAdd acc.1 p.2.content (1 / ((p.1 : ℚ) + rrf_k)),
   dictPut acc.2 p.2.content p.2)

/-- Process one source result list: rank it by `x.score or 0.0` descending
(stable) and accumulate reciprocal-rank contributions. -/
def rrfList (acc : List (String × ℚ) × List (String × RNode))
    (nodes : List RNode) : List (String × ℚ) × List (String × RNode) :=
  ((pySortDesc rankKey nodes).enum).foldl rrfStep acc

/-- `_reciprocal_rerank_fusion`: accumulate over `results.values()`, sort the
fused dict items by score descending, and emit each kept node with its fused
score. -/
def reciprocalRerankFusion (results : Results) : List RNode :=
  let st := results.foldl (fun acc kn => rrfList acc kn.2) ([], [])
  (pySortDesc (fun e : String × ℚ => e.2) st.1).map
    (fun e => { ((dictGet? st.2 e.1).getD ⟨e.1, none⟩) with score := some e.2 })

/-! ## `_relative_score_fusion` (fusion_retriever.py lines 208-263) -/

/-- The per-list normalization bounds of `_relative_score_fusion`: `(0.0, 0.0)`
for an empty list; otherwise `min`/`max` of the raw scores, or
`mean ± 3·stddev` in the distance-based variant.  `** 0.5` is an operation on
reals without a rational closed form, so the square root is taken as an
explicit function argument `sqrtFn`. -/
def listMinMax (dist_based : Bool) (sqrtFn : ℚ → ℚ) (nodes : List RNode) :
    Except PyErr (Option ℚ × Option ℚ) :=
  if nodes.isEmpty then .ok (some 0, some 0)
  else
    let scores := nodes.map RNode.score
    if dist_based then do
      let s ← pySum scores
      let mean := s / (scores.length : ℚ)
      let sqs ← scores.mapM (fun x => do
        let d ← pySub x (some mean)
        pure (d * d))
      let variance := sqs.sum / (scores.length : ℚ)
      let std_dev := sqrtFn variance
      pure (some (mean - 3 * std_dev), some (mean + 3 * std_dev))
    else do
      let mn ← pyMin scores
      let mx ← pyMax scores
      pure (mn, mx)

/-- The min-max scaling of one score:
`1.0 if max_score > 0 else 0.0` when `max_score == min_score`, otherwise
`(score - min_score) / (max_score - min_score)`. -/
def normalizeWithBounds (mn mx s : Option ℚ) : Except PyErr ℚ :=
  if pyEqO mx mn then do
    let b ← pyGtZero mx
    pure (if b then 1 else 0)
  else do
    let num ← pySub s mn
    let den ← pySub mx mn
    pure (num / den)

/-- Rescale every node of one source list: normalize, multiply by the
retriever weight `self._retriever_weights[retriever_idx]`, divide by
`self.num_queries`. -/
def scaleList (weights : List ℚ) (num_queries : ℕ) (mnmx : Option ℚ × Option ℚ)
    (idx : ℕ) (nodes : List RNode) : Except PyErr (List RNode) :=
  nodes.mapM (fun n => do
    let v ← normalizeWithBounds mnmx.1 mnmx.2 n.score
    let w ← pyIndex weights idx
    let v2 ← pyDivCount (v * w) num_queries
    pure { n with score := some v2 })

/-- The deduplicate-and-sum loop of `_relative_score_fusion`:
`all_nodes[text].score += node_with_score.score` on a repeat, else insert. -/
def sumStep (d : List (String × RNode)) (n : RNode) :
    Except PyErr (List (String × RNode)) :=
  match dictGet? d n.content with
  | some ex => do
      let s ← pyAdd ex.score n.score
      pure (dictPut d n.content { ex with score := some s })
  | none => pure (dictPut d n.content n)

/-- `_relative_score_fusion` (and, with `dist_based = true`,
`dist_based_score`): per-list min-max normalization, weighting, dedup-by-
content with score summation, final sort by `x.score or 0.0` descending.
The two passes of the source (bounds dict, then rescale loop) are kept as two
passes; the rescale loop reads the bounds of the list with the same key,
here the positionally corresponding entry (dict keys are unique). -/
def relativeScoreFusion (dist_based : Bool) (sqrtFn : ℚ → ℚ)
    (weights : List ℚ) (num_queries : ℕ) (results : Results) :
    Except PyErr (List RNode) := do
  let mnmx ← results.mapM (fun kn => listMinMax dist_based sqrtFn kn.2)
  let scaled ← (results.zip mnmx).mapM (fun p => do
    let nodes2 ← scaleList weights num_queries p.2 p.1.1.2 p.1.2
    pure (p.1.1, nodes2))
  let allNodes ← scaled.foldlM (fun d kn => kn.2.foldlM sumStep d)
    ([] : List (String × RNode))
  pure (pySortDesc rankKey (dictValues allNodes))

/-! ## `_simple_fusion` and `_no_fusion` (fusion_retriever.py lines 265-291) -/

/-- One node of `_simple_fusion`: on duplicate content keep
`max(node_with_score.score, all_nodes[text].score)` (raises comparing `None`). -/
def simpleStep (d : List (String × RNode)) (n : RNode) :
    Except PyErr (List (String × RNode)) :=
  match dictGet? d n.content with
  | some ex => do
      let b ← pyGt ex.score n.score
      pure (dictPut d n.content { ex with score := if b then ex.score else n.score })
  | none => pure (dictPut d n.content n)

/-- `_simple_fusion`: dedup by content keeping the max score, then sort by
`x.score or 0.0` descending. -/
def simpleFusion (results : Results) : Except PyErr (List RNode) := do
  let allNodes ← results.foldlM (fun d kn => kn.2.foldlM simpleStep d)
    ([] : List (String × RNode))
  pure (pySortDesc rankKey (dictValues allNodes))

/-- `_no_fusion`: concatenate all result lists in arrival (insertion) order. -/
def noFusion (results : Results) : List RNode :=
  results.foldl (fun acc kn => acc ++ kn.2) []

/-! ## Mode dispatch and the concurrent fan-out -/

/-- `FUSION_MODES` of fusion_retriever.py. -/
inductive FUSION_MODES where
  | reciprocal_rank
  | detail_reciprocal_rank
  | relative_score
  | dist_based_score
  | simple
  | no_fusion
deriving DecidableEq, Repr

/-- The mode dispatch of `_retrieve` / `_aretrieve` after the fan-out: each
fused list is truncated to `similarity_top_k` except `no_fusion`;
`DETAIL_RECIPROCAL_RANK` has no branch and falls into
`raise ValueError(f"Invalid fusion mode: ...")`. -/
def fuseResults (mode : FUSION_MODES) (weights : List ℚ) (num_queries : ℕ)
    (sqrtFn : ℚ → ℚ) (top_k : ℕ) (results : Results) :
    Except PyErr (List RNode) :=
  match mode with
  | .reciprocal_rank => .ok ((reciprocalRerankFusion results).take top_k)
  | .relative_score =>
      (relativeScoreFusion false sqrtFn weights num_queries results).map
        (List.take top_k)
  | .dist_based_score =>
      (relativeScoreFusion true sqrtFn weights num_queries results).map
        (List.take top_k)
  | .simple => (simpleFusion results).map (List.take top_k)
  | .no_fusion => .ok (noFusion results)
  | .detail_reciprocal_rank => .error .valueError

/-- The task list of the fan-out: one `(query_str, retriever_index)` pair per
query × retriever, queries outermost, exactly the issue order of
`_run_async_queries`. -/
def taskQueries (queries : List String) (numRetrievers : ℕ) :
    List (String × ℕ) :=
  queries.flatMap (fun q => (List.range numRetrievers).map (fun i => (q, i)))

/-- `asyncio.gather`: tasks complete in an arbitrary `arrival` order, each
completion recording `(task index, task result)`; `gather` returns the
results re-assembled in task order, not completion order. -/
def gatherResults (taskResults : List (List RNode)) (arrival : List ℕ) :
    List (List RNode) :=
  let events := arrival.map (fun i => (i, taskResults.getD i []))
  (List.range taskResults.length).map (fun i => (dictGet? events i).getD [])

/-- `_run_async_queries`: fan out every (query, retriever) pair, gather, and
zip task keys with task results into the results dict. `resultOf` is the
(deterministic per-pair) behavior of the underlying retrievers. -/
def runAsyncQueries (resultOf : String × ℕ → List RNode)
    (queries : List String) (numRetrievers : ℕ) (arrival : List ℕ) : Results :=
  let tq := taskQueries queries numRetrievers
  let trs := gatherResults (tq.map resultOf) arrival
  (tq.zip trs).foldl (fun d p => dictPut d p.1 p.2) []

/-- `_retrieve` / `_aretrieve` downstream of query generation: run the
fan-out under a completion schedule `arrival`, then fuse. -/
def retrieveWithSchedule (mode : FUSION_MODES) (weights : List ℚ)
    (num_queries : ℕ) (sqrtFn : ℚ → ℚ) (top_k : ℕ)
    (resultOf : String × ℕ → List RNode) (queries : List String)
    (numRetrievers : ℕ) (arrival : List ℕ) : Except PyErr (List RNode) :=
  fuseResults mode weights num_queries sqrtFn top_k
    (runAsyncQueries resultOf queries numRetrievers arrival)

/-! ## Retriever weights (fusion_retriever.py lines 127-132) -/

/-- The weight normalization of `MyQueryFusionRetriever.__init__`:
`[1.0 / len(retrievers)] * len(retrievers)` when no weights are supplied,
else `[w / sum(ws) for w in ws]`; Python float division by zero raises
`ZeroDivisionError`. -/
def mkRetrieverWeights (retriever_weights : Option (List ℚ))
    (numRetrievers : ℕ) : Except PyErr (List ℚ) :=
  match retriever_weights with
  | none =>
      if numRetrievers = 0 then .error .zeroDivisionError
      else .ok (List.replicate numRetrievers (1 / (numRetrievers : ℚ)))
  | some ws =>
      ws.mapM (fun w =>
        if ws.sum = 0 then .error .zeroDivisionError else .ok (w / ws.sum))

/-! ## `_ahandle_recursive_retrieval` (fusion_retriever.py lines 384-410) -/

/-- The payload kind of a result node: a plain node, or an `IndexNode`
carrying `index_id` and an optional directly-attached object (`node.obj`).
Nested retrievable objects are identified by name. -/
inductive SNodeKind where
  | plain
  | indexNode (index_id : String) (obj : Option String)
deriving DecidableEq, Repr

/-- A scored result node as seen by recursive retrieval. -/
structure SNode where
  content : String
  score : Option ℚ
  kind : SNodeKind
deriving DecidableEq, Repr

/-- Python `n.score or 1.0`: `None` and `0.0` are both falsy, so a missing
score AND a zero score become `1.0`. -/
def pyOrScore (s : Option ℚ) (d : ℚ) : ℚ :=
  match s with
  | none => d
  | some v => if v = 0 then d else v

/-- Python `node.obj or self.object_map.get(node.index_id, None)`:
a non-`None` object is truthy. -/
def pyOrObj (a : Option String) (b : Option String) : Option String :=
  match a with
  | none => b
  | some x => some x

/-- The object referenced by a node, if any: `None` for non-`IndexNode`s,
else `node.obj or object_map.get(node.index_id, None)`. -/
def resolvesTo (objectMap : List (String × String)) (n : SNode) :
    Option String :=
  match n.kind with
  | .plain => none
  | .indexNode index_id obj => pyOrObj obj (dictGet? objectMap index_id)

/-- `_ahandle_recursive_retrieval`: every node that resolves to a nested
object is replaced in place by `_aretrieve_from_object(obj, query, score)`
(modelled by the `retrieveFromObject` argument, the query being fixed);
all other nodes pass through. -/
def ahandleRecursiveRetrieval (objectMap : List (String × String))
    (retrieveFromObject : String → ℚ → List SNode) (nodes : List SNode) :
    List SNode :=
  nodes.flatMap (fun n =>
    let score := pyOrScore n.score 1
    match n.kind with
    | .indexNode index_id obj =>
        match pyOrObj obj (dictGet? objectMap index_id) with
        | some o => retrieveFromObject o score
        | none => [n]
    | .plain => [n])

/-! ## Node partitioner `_get_image_and_text_nodes`
(multi_modal_query_engine.py lines 56-94) -/

/-- `IMAGE_MAX_PIECES = 5`. -/
def IMAGE_MAX_PIECES : ℕ := 5

/-- `TEXT_IMAGE_WEIGHT = 0.5`. -/
def TEXT_IMAGE_WEIGHT : ℚ := 1 / 2

/-- A scored node of the multi-modal engine: an `ImageNode` (`is_image`,
with `image_url`) or a text node (`content`, with the metadata entry
`metadata["image_url"]` as a list of references — `[]` models both an
absent and an empty, hence falsy, entry).  The source score is
`Optional[float]`; an unset score would raise inside `list.sort` and is
outside the claims modelled here, so the score is carried as `ℚ`. -/
structure MMNode where
  is_image : Bool
  image_url : String
  metadata_image_url : List String
  file_name : String
  content : String
  score : ℚ
deriving DecidableEq, Repr

/-- `_get_image_and_text_nodes`: collect the urls of native image nodes;
split into image and text nodes (input order); synthesize one image node per
occurrence of a metadata reference not among the native urls, scored with
the originating text node's score; sort native and synthesized by score
descending; discount the synthesized by `TEXT_IMAGE_WEIGHT` after sorting;
append synthesized after native and truncate to `IMAGE_MAX_PIECES`. -/
def getImageAndTextNodes (nodes : List MMNode) : List MMNode × List MMNode :=
  let image_urls := (nodes.filter (·.is_image)).map (·.image_url)
  let image_nodes := nodes.filter (·.is_image)
  let text_nodes := nodes.filter (fun n => !n.is_image)
  let text_image_nodes := text_nodes.flatMap (fun n =>
    (n.metadata_image_url.filter (fun u => !(image_urls.contains u))).map
      (fun u =>
        { is_image := true, image_url := u, metadata_image_url := [],
          file_name := n.file_name, content := "", score := n.score }))
  let image_sorted := pySortDesc MMNode.score image_nodes
  let ti_sorted := (pySortDesc MMNode.score text_image_nodes).map
    (fun m => { m with score := m.score * TEXT_IMAGE_WEIGHT })
  ((image_sorted ++ ti_sorted).take IMAGE_MAX_PIECES, text_nodes)

/-- The image-list half of the partition as the spec words it (amended):
synthesized nodes get the discounted score `0.5 × origin` up front and are
then sorted, one node per occurrence of a reference not already present as
a native image node. -/
def specPartitionImages (nodes : List MMNode) : List MMNode :=
  let native := nodes.filter (·.is_image)
  let native_urls := native.map (·.image_url)
  let synth := (nodes.filter (fun n => !n.is_image)).flatMap (fun n =>
    (n.metadata_image_url.filter (fun u => !(native_urls.contains u))).map
      (fun u =>
        { is_image := true, image_url := u, metadata_image_url := [],
          file_name := n.file_name, content := "",
          score := n.score * TEXT_IMAGE_WEIGHT }))
  (pySortDesc MMNode.score native ++ pySortDesc MMNode.score synth).take
    IMAGE_MAX_PIECES

/-! ## `MySimpleMultiModalQueryEngine`
(multi_modal_query_engine.py lines 99-352) -/

/-- A text LLM client: single-shot and incremental completion, in the
synchronous and awaitable variants (a stream is modelled by the delta list
it yields). -/
structure PyLLM where
  complete_fn : String → String
  acomplete_fn : String → String
  stream_complete_fn : String → List String
  astream_complete_fn : String → List String

/-- A multi-modal LLM client: the same four entry points, additionally
taking the image documents. -/
structure MMLLM where
  complete_fn : String → List MMNode → String
  acomplete_fn : String → List MMNode → String
  stream_complete_fn : String → List MMNode → List String
  astream_complete_fn : String → List MMNode → List String

/-- A QA prompt template: `template.format(context_str=..., query_str=...)`. -/
abbrev QATemplate := String → String → String

/-- Stand-in for llama_index `DEFAULT_TEXT_QA_PROMPT` (an external
collaborator); its exact text is irrelevant to every claim. -/
def DEFAULT_TEXT_QA_PROMPT : QATemplate :=
  fun context_str query_str =>
    "Context information is below.\n" ++ context_str ++
      "\nQuery: " ++ query_str ++ "\nAnswer: "

/-- The post-construction state of `MySimpleMultiModalQueryEngine`:
`need_image` is `self._retriever._need_image`. -/
structure EngineState where
  multi_modal_llm : MMLLM
  llm : Option PyLLM
  text_qa_template : QATemplate
  image_qa_template : QATemplate
  stream : Bool
  need_image : Bool

/-- `MySimpleMultiModalQueryEngine.__init__` (lines 113-152): a supplied
`multi_modal_llm` is stored; with none supplied the constructor imports and
builds a default `OpenAIMultiModal` client, raising `ImportError` when that
integration package is unavailable.  `self._stream = True` is hardcoded
(`# TODO: Modify stream parameter.`), ignoring the `stream` argument. -/
def initEngine (multi_modal_llm : Option MMLLM) (llm : Option PyLLM)
    (text_qa_template image_qa_template : Option QATemplate)
    (stream : Bool) (need_image : Bool)
    (openai_pkg_available : Bool) (default_openai_mm : MMLLM) :
    Except PyErr EngineState :=
  match multi_modal_llm with
  | some m =>
      .ok { multi_modal_llm := m, llm,
            text_qa_template := text_qa_template.getD DEFAULT_TEXT_QA_PROMPT,
            image_qa_template := image_qa_template.getD DEFAULT_TEXT_QA_PROMPT,
            stream := true, need_image }
  | none =>
      if openai_pkg_available then
        .ok { multi_modal_llm := default_openai_mm, llm,
              text_qa_template := text_qa_template.getD DEFAULT_TEXT_QA_PROMPT,
              image_qa_template := image_qa_template.getD DEFAULT_TEXT_QA_PROMPT,
              stream := true, need_image }
      else .error .importError

/-- A synthesis result: `AsyncStreamingResponse(response_gen, source_nodes)`
(the stream modelled by its delta list) or
`Response(response, source_nodes, metadata={text_nodes, image_nodes})`. -/
inductive SynthResult where
  | streaming (deltas : List String) (source_nodes : List MMNode)
  | batch (response : String) (source_nodes : List MMNode)
      (text_nodes image_nodes : List MMNode)
deriving DecidableEq

/-- Attribute lookup `. stream_complete` on `self._llm.acomplete` (line 215
of multi_modal_query_engine.py): `acomplete` is a bound method, and Python
function objects carry no such attribute, so the lookup raises
`AttributeError` on every call. -/
def methodGetattrStreamComplete (_m : String → String) :
    Except PyErr (String → List String) :=
  .error .attributeError

/-- The `"\n\n"`-joined text contents (`get_content(MetadataMode.LLM)` is
modelled by the node content). -/
def joinedText (text_nodes : List MMNode) : String :=
  String.intercalate "\n\n" (text_nodes.map (·.content))

/-- The `"\n\n"`-joined image urls. -/
def joinedImageUrls (image_nodes : List MMNode) : String :=
  String.intercalate "\n\n" (image_nodes.map (·.image_url))

/-- The image-link section appended to the context
(`f"{context_str}\n\n图片链接列表: \n\n{images_str}\n\n"`). -/
def withImageSection (context_str images_str : String) : String :=
  context_str ++ "\n\n图片链接列表: \n\n" ++ images_str ++ "\n\n"

/-- `synthesize` (lines 183-251): partition the nodes, build the context
(the image-link section is appended once up front and again inside the
image branches, as in the source), then branch on `self._stream` and
`self._retriever._need_image`.  The text + streaming branch evaluates
`self._llm.acomplete.stream_complete` — an attribute lookup on a bound
method; an unset `self._llm` likewise fails its attribute lookup. -/
def synthesize (st : EngineState) (query_str : String) (nodes : List MMNode) :
    Except PyErr SynthResult :=
  let parts := getImageAndTextNodes nodes
  let image_nodes := parts.1
  let text_nodes := parts.2
  let context_str :=
    withImageSection (joinedText text_nodes) (joinedImageUrls image_nodes)
  if st.stream then
    if st.need_image then
      let context_str2 := withImageSection context_str (joinedImageUrls image_nodes)
      let fmt_prompt := st.image_qa_template context_str2 query_str
      .ok (.streaming (st.multi_modal_llm.stream_complete_fn fmt_prompt image_nodes)
        nodes)
    else
      let fmt_prompt := st.text_qa_template context_str query_str
      match st.llm with
      | none => .error .attributeError
      | some l =>
          (methodGetattrStreamComplete l.acomplete_fn).map
            (fun sc => .streaming (sc fmt_prompt) nodes)
  else
    if st.need_image then
      let context_str2 := withImageSection context_str (joinedImageUrls image_nodes)
      let fmt_prompt := st.image_qa_template context_str2 query_str
      .ok (.batch (st.multi_modal_llm.complete_fn fmt_prompt image_nodes)
        nodes text_nodes image_nodes)
    else
      let fmt_prompt := st.text_qa_template context_str query_str
      match st.llm with
      | none => .error .attributeError
      | some l => .ok (.batch (l.complete_fn fmt_prompt) nodes text_nodes image_nodes)

/-- `asynthesize` (lines 272-352): same branching, but the base context has
no up-front image section, and the text + streaming branch correctly calls
`self._llm.astream_complete`; an unset `self._llm` raises `AttributeError`
at the call. -/
def asynthesize (st : EngineState) (query_str : String) (nodes : List MMNode) :
    Except PyErr SynthResult :=
  let parts := getImageAndTextNodes nodes
  let image_nodes := parts.1
  let text_nodes := parts.2
  let context_str := joinedText text_nodes
  if st.stream then
    if st.need_image then
      let context_str2 := withImageSection context_str (joinedImageUrls image_nodes)
      let fmt_prompt := st.image_qa_template context_str2 query_str
      .ok (.streaming (st.multi_modal_llm.astream_complete_fn fmt_prompt image_nodes)
        nodes)
    else
      let fmt_prompt := st.text_qa_template context_str query_str
      match st.llm with
      | none => .error .attributeError
      | some l => .ok (.streaming (l.astream_complete_fn fmt_prompt) nodes)
  else
    if st.need_image then
      let context_str2 := withImageSection context_str (joinedImageUrls image_nodes)
      let fmt_prompt := st.image_qa_template context_str2 query_str
      .ok (.batch (st.multi_modal_llm.acomplete_fn fmt_prompt image_nodes)
        nodes text_nodes image_nodes)
    else
      let fmt_prompt := st.text_qa_template context_str query_str
      match st.llm with
      | none => .error .attributeError
      | some l => .ok (.batch (l.acomplete_fn fmt_prompt) nodes text_nodes image_nodes)

/-- A concrete text LLM client, for concrete instantiations. -/
def sampleLLM : PyLLM :=
  { complete_fn := fun _ => "answer", acomplete_fn := fun _ => "answer",
    stream_complete_fn := fun _ => ["answer"],
    astream_complete_fn := fun _ => ["answer"] }

/-- A concrete multi-modal LLM client, for concrete instantiations. -/
def sampleMM : MMLLM :=
  { complete_fn := fun _ _ => "answer", acomplete_fn := fun _ _ => "answer",
    stream_complete_fn := fun _ _ => ["answer"],
    astream_complete_fn := fun _ _ => ["answer"] }

/-- A concrete engine state with a text LLM configured, streaming (as
hardcoded), text-only. -/
def textState : EngineState :=
  { multi_modal_llm := sampleMM, llm := some sampleLLM,
    text_qa_template := DEFAULT_TEXT_QA_PROMPT,
    image_qa_template := DEFAULT_TEXT_QA_PROMPT,
    stream := true, need_image := false }

/-! ## Recursive expansion: lemmas and claim C7 -/

theorem ahandle_append (om : List (String × String))
    (f : String → ℚ → List SNode) (xs ys : List SNode) :
    ahandleRecursiveRetrieval om f (xs ++ ys) =
      ahandleRecursiveRetrieval om f xs ++ ahandleRecursiveRetrieval om f ys := by
  simp [ahandleRecursiveRetrieval]

theorem ahandle_cons (om : List (String × String))
    (f : String → ℚ → List SNode) (n : SNode) (ns : List SNode) :
    ahandleRecursiveRetrieval om f (n :: ns) =
      (match resolvesTo om n with
       | some o => f o (pyOrScore n.score 1)
       | none => [n]) ++ ahandleRecursiveRetrieval om f ns := by
  unfold ahandleRecursiveRetrieval
  rw [List.flatMap_cons]
  congr 1
  cases hk : n.kind with
  | plain => simp [resolvesTo, hk]
  | indexNode id obj => simp only [resolvesTo, hk]

/-- C7 (amended): in recursive expansion, a node resolving to a nested
object is replaced in place by retrieval against that object; the
propagated score is the node's score when it is set and nonzero, and `1.0`
when the score is unset OR set to `0.0` (Python `or` treats `0.0` as
falsy); nodes that resolve to no object pass through unchanged in their
original order. -/
theorem C7_recursive_expansion_amended :
    (∀ (om : List (String × String)) (f : String → ℚ → List SNode)
        (xs ys : List SNode) (n : SNode) (o : String),
        resolvesTo om n = some o →
        ahandleRecursiveRetrieval om f (xs ++ n :: ys) =
          ahandleRecursiveRetrieval om f xs ++ f o (pyOrScore n.score 1) ++
            ahandleRecursiveRetrieval om f ys) ∧
    (∀ (om : List (String × String)) (f : String → ℚ → List SNode)
        (nodes : List SNode),
        (∀ n ∈ nodes, resolvesTo om n = none) →
        ahandleRecursiveRetrieval om f nodes = nodes) ∧
    (∀ (s : Option ℚ) (v : ℚ), s = some v → v ≠ 0 → pyOrScore s 1 = v) ∧
    (∀ s : Option ℚ, s = none ∨ s = some 0 → pyOrScore s 1 = 1) := by
  refine ⟨?_, ?_, ?_, ?_⟩
  · intro om f xs ys n o h
    rw [ahandle_append, ahandle_cons, h]
    simp [List.append_assoc]
  · intro om f nodes h
    induction nodes with
    | nil => rfl
    | cons n ns ih =>
        rw [ahandle_cons, h n (by simp)]
        simp only [List.singleton_append, List.cons.injEq, true_and]
        exact ih fun m hm => h m (by simp [hm])
  · intro s v hs hv
    subst hs
    simp [pyOrScore, hv]
  · intro s hs
    rcases hs with h | h <;> subst h <;> simp [pyOrScore]

/-- A nested-retrieval stub that records the propagated score in its single
result node. -/
def recProbe : String → ℚ → List SNode := fun o s => [⟨o, some s, .plain⟩]

/-- C7 counterexample: a node with the SET score `0.0` that resolves to a
nested object propagates score `1.0`, not `0.0` — the claim says a set
score of `0.0` is propagated as `0.0`. -/
theorem C7_counterexample :
    ahandleRecursiveRetrieval [("i", "OBJ")] recProbe
        [⟨"x", some 0, SNodeKind.indexNode "i" none⟩] =
      [⟨"OBJ", some 1, SNodeKind.plain⟩] ∧
    (⟨"OBJ", some 1, SNodeKind.plain⟩ : SNode) ≠
      ⟨"OBJ", some 0, SNodeKind.plain⟩ := by
  exact ⟨rfl, by decide⟩

/-- C7 witness: the amended theorem applied at a concrete spliced input. -/
theorem C7_recursive_expansion_amended_witness :
    ahandleRecursiveRetrieval [("i", "OBJ")] recProbe
        ([⟨"p", some (1/2), SNodeKind.plain⟩] ++
          (⟨"x", some (3/4), SNodeKind.indexNode "i" none⟩ : SNode) :: []) =
      ahandleRecursiveRetrieval [("i", "OBJ")] recProbe
          [⟨"p", some (1/2), SNodeKind.plain⟩] ++
        recProbe "OBJ" (pyOrScore (some (3/4)) 1) ++
        ahandleRecursiveRetrieval [("i", "OBJ")] recProbe [] :=
  C7_recursive_expansion_amended.1 [("i", "OBJ")] recProbe
    [⟨"p", some (1/2), SNodeKind.plain⟩] []
    ⟨"x", some (3/4), SNodeKind.indexNode "i" none⟩ "OBJ" rfl

/-! ## Retriever weights: lemmas and claim C9 -/

theorem mapM_except_ok (f : α → β) :
    ∀ l : List α,
      l.mapM (fun a => (Except.ok (f a) : Except PyErr β)) = .ok (l.map f) := by
  intro l
  induction l with
  | nil => rfl
  | cons a t ih =>
      rw [List.mapM_cons, ih]
      rfl

theorem sum_map_div (ws : List ℚ) (s : ℚ) :
    (ws.map (fun w => w / s)).sum = ws.sum / s := by
  induction ws with
  | nil => simp
  | cons a t ih => simp [ih, add_div]

/-- C9 (amended): a supplied weight list with nonzero sum is normalized so
the stored weights sum to exactly 1; with no supplied list and a non-empty
retriever list, uniform weights summing to 1 are stored; a non-empty
supplied list with zero sum raises `ZeroDivisionError` at construction (so
no weights are stored); a supplied empty list stores an empty weight list. -/
theorem C9_weight_normalization_amended :
    (∀ (ws : List ℚ) (n : ℕ), ws.sum ≠ 0 →
        mkRetrieverWeights (some ws) n = .ok (ws.map (fun w => w / ws.sum)) ∧
        (ws.map (fun w => w / ws.sum)).sum = 1) ∧
    (∀ n : ℕ, n ≠ 0 →
        mkRetrieverWeights none n =
          .ok (List.replicate n (1 / (n : ℚ))) ∧
        (List.replicate n (1 / (n : ℚ))).sum = 1) ∧
    (∀ (ws : List ℚ) (n : ℕ), ws ≠ [] → ws.sum = 0 →
        mkRetrieverWeights (some ws) n = .error .zeroDivisionError) ∧
    (∀ n : ℕ, mkRetrieverWeights (some []) n = .ok []) := by
  refine ⟨?_, ?_, ?_, ?_⟩
  · intro ws n h
    constructor
    · show ws.mapM _ = _
      have : (fun w => if ws.sum = 0 then (Except.error PyErr.zeroDivisionError :
          Except PyErr ℚ) else .ok (w / ws.sum)) =
          fun w => .ok (w / ws.sum) := by
        funext w
        rw [if_neg h]
      rw [this, mapM_except_ok]
    · rw [sum_map_div, div_self h]
  · intro n h
    refine ⟨by simp [mkRetrieverWeights, h], ?_⟩
    rw [List.sum_replicate, nsmul_eq_mul]
    have hn : (n : ℚ) ≠ 0 := Nat.cast_ne_zero.mpr h
    field_simp
  · intro ws n hne h
    cases ws with
    | nil => exact absurd rfl hne
    | cons a t =>
        show (a :: t).mapM _ = _
        rw [List.mapM_cons]
        rw [if_pos h]
        rfl
  · intro n
    rfl

/-- C9 counterexample: the supplied weight list `[1, -1]` sums to zero, so
construction raises `ZeroDivisionError` and no stored weights sum to 1 —
the claim says any supplied list yields stored weights summing to 1. -/
theorem C9_counterexample :
    mkRetrieverWeights (some [1, -1]) 2 = .error .zeroDivisionError ∧
    (mkRetrieverWeights (some [1, -1]) 2).isOk = false := by
  have h : mkRetrieverWeights (some [1, -1]) 2 = .error .zeroDivisionError := by
    show ([1, -1] : List ℚ).mapM _ = _
    rw [List.mapM_cons]
    rw [if_pos (by norm_num : ([1, -1] : List ℚ).sum = 0)]
    rfl
  exact ⟨h, by rw [h]; rfl⟩

/-- C9 witness: the amended theorem applied to the weight list `[1, 3]`. -/
theorem C9_weight_normalization_amended_witness :
    mkRetrieverWeights (some [1, 3]) 2 =
      .ok (([1, 3] : List ℚ).map (fun w => w / ([1, 3] : List ℚ).sum)) ∧
    (([1, 3] : List ℚ).map (fun w => w / ([1, 3] : List ℚ).sum)).sum = 1 :=
  C9_weight_normalization_amended.1 [1, 3] 2 (by norm_num)

/-! ## Node partitioner: lemmas and claim C2 -/

theorem pySortDesc_map_discount (l : List MMNode) :
    pySortDesc MMNode.score
        (l.map (fun m => { m with score := m.score * TEXT_IMAGE_WEIGHT })) =
      (pySortDesc MMNode.score l).map
        (fun m => { m with score := m.score * TEXT_IMAGE_WEIGHT }) := by
  refine pySortDesc_map ?_ l
  intro a b
  show b.score * TEXT_IMAGE_WEIGHT ≤ a.score * TEXT_IMAGE_WEIGHT ↔
    b.score ≤ a.score
  exact mul_le_mul_right (by norm_num [TEXT_IMAGE_WEIGHT])

theorem flatMap_congr_fun (l : List α) (f₁ f₂ : α → List β)
    (h : ∀ a ∈ l, f₁ a = f₂ a) : l.flatMap f₁ = l.flatMap f₂ := by
  induction l with
  | nil => rfl
  | cons a t ih =>
      rw [List.flatMap_cons, List.flatMap_cons, h a (by simp),
        ih fun b hb => h b (by simp [hb])]

/-- C2 (amended): `partition` classifies by node kind; every OCCURRENCE of a
metadata image reference of a text node that is not a native image-node url
yields one synthesized image node (duplicate references are not merged)
scored at `0.5 ×` the originating text node's score; the image list is the
natives sorted by score descending followed by the synthesized sorted by
score descending, truncated to 5; text nodes keep input order. -/
theorem C2_partition_amended (nodes : List MMNode) :
    getImageAndTextNodes nodes =
      (specPartitionImages nodes, nodes.filter (fun n => !n.is_image)) := by
  unfold getImageAndTextNodes specPartitionImages
  simp only [Prod.mk.injEq]
  refine ⟨?_, trivial⟩
  rw [← pySortDesc_map_discount]
  congr 3
  rw [List.map_flatMap]
  refine flatMap_congr_fun _ _ _ fun n _ => ?_
  rw [List.map_map]
  rfl

/-- A text node whose metadata lists the same image reference twice. -/
def dupRefNode : MMNode :=
  { is_image := false, image_url := "", metadata_image_url := ["u", "u"],
    file_name := "f", content := "t", score := 1 }

/-- C2 counterexample: a text node whose metadata carries the reference
`"u"` twice yields TWO synthesized image nodes, where the claim
("one synthesized image node per unique reference") requires one. -/
theorem C2_counterexample :
    (getImageAndTextNodes [dupRefNode]).1 =
      [{ is_image := true, image_url := "u", metadata_image_url := [],
         file_name := "f", content := "", score := 1 / 2 },
       { is_image := true, image_url := "u", metadata_image_url := [],
         file_name := "f", content := "", score := 1 / 2 }] ∧
    ((getImageAndTextNodes [dupRefNode]).1).length ≠ 1 := by
  have h : (getImageAndTextNodes [dupRefNode]).1 =
      [{ is_image := true, image_url := "u", metadata_image_url := [],
         file_name := "f", content := "", score := 1 / 2 },
       { is_image := true, image_url := "u", metadata_image_url := [],
         file_name := "f", content := "", score := 1 / 2 }] := by
    norm_num [getImageAndTextNodes, dupRefNode, TEXT_IMAGE_WEIGHT,
      IMAGE_MAX_PIECES, pySortDesc, List.insertionSort, List.orderedInsert]
  refine ⟨h, ?_⟩
  rw [h]
  decide

/-! ## Synthesizer branches: claims C4, C8, C10 -/

/-- C4: the text-only + streaming branch of the synchronous `synthesize`
raises `AttributeError` on every call — `self._llm.acomplete.stream_complete`
looks up `stream_complete` on the bound method `acomplete` — instead of
invoking the LLM's incremental completion (the asynchronous `asynthesize`
performs the very same branch correctly via `astream_complete`). -/
theorem C4_text_streaming_synthesize (st : EngineState) (q : String)
    (nodes : List MMNode) (hs : st.stream = true)
    (hni : st.need_image = false) :
    synthesize st q nodes = .error .attributeError := by
  unfold synthesize
  rw [hs, hni]
  cases st.llm <;> simp [methodGetattrStreamComplete, Except.map]

/-- C4 witness: the failing branch at a concrete state and input. -/
theorem C4_text_streaming_synthesize_witness :
    synthesize textState "q" [] = .error .attributeError :=
  C4_text_streaming_synthesize textState "q" [] rfl rfl

/-- An engine state with the text LLM unset. -/
def noLLMState : EngineState :=
  { multi_modal_llm := sampleMM, llm := none,
    text_qa_template := DEFAULT_TEXT_QA_PROMPT,
    image_qa_template := DEFAULT_TEXT_QA_PROMPT,
    stream := true, need_image := false }

/-- C8 counterexample: constructing with the multi-modal inference client
unset (and the OpenAI multi-modal integration unavailable) raises
`ImportError` AT CONSTRUCTION — the claim says construction with an
inference client unset succeeds without error. -/
theorem C8_counterexample :
    initEngine none (some sampleLLM) none none false false false sampleMM =
      .error .importError := rfl

/-- C8 (amended): constructing with the TEXT LLM unset succeeds, and the
missing text client surfaces as an error only at synthesis time when a
text-only branch executes; constructing with the multi-modal client unset
instead builds a default OpenAI client at construction, raising
`ImportError` when that integration is unavailable; a synthesizer with only
a text LLM configured (default multi-modal importable) still serves
text-only queries through the asynchronous path. -/
theorem C8_client_errors_amended :
    (∀ (m : MMLLM) (tq iq : Option QATemplate) (stream ni avail : Bool)
        (d : MMLLM), ∃ st : EngineState,
        initEngine (some m) none tq iq stream ni avail d = .ok st ∧
        st.llm = none) ∧
    (∀ (st : EngineState) (q : String) (nodes : List MMNode),
        st.llm = none → st.need_image = false →
        asynthesize st q nodes = .error .attributeError ∧
        synthesize st q nodes = .error .attributeError) ∧
    (∀ (st : EngineState) (q : String) (nodes : List MMNode) (l : PyLLM),
        st.llm = some l → st.need_image = false → st.stream = true →
        ∃ deltas, asynthesize st q nodes = .ok (.streaming deltas nodes)) := by
  refine ⟨?_, ?_, ?_⟩
  · intro m tq iq stream ni avail d
    exact ⟨_, rfl, rfl⟩
  · intro st q nodes hl hni
    constructor
    · unfold asynthesize
      rw [hl, hni]
      cases st.stream <;> simp
    · unfold synthesize
      rw [hl, hni]
      cases st.stream <;> simp
  · intro st q nodes l hl hni hs
    unfold asynthesize
    rw [hl, hni, hs]
    exact ⟨_, rfl⟩

/-- C8 witness: the amended theorem's synthesis-time error at a concrete
state with the text LLM unset. -/
theorem C8_client_errors_amended_witness :
    asynthesize noLLMState "q" [] = .error .attributeError ∧
    synthesize noLLMState "q" [] = .error .attributeError :=
  C8_client_errors_amended.2.1 noLLMState "q" [] rfl rfl

/-- C10 (amended): `_stream` is hardcoded to `True` whatever `stream`
argument construction receives, so the synchronous `synthesize` always
takes the streaming branch and never returns the batch `Response`; in the
image branch it returns a streaming response object, while in the text
branch it raises `AttributeError` (the `acomplete.stream_complete` slip)
instead of returning one. -/
theorem C10_stream_hardcoded_amended :
    (∀ (mm : Option MMLLM) (llm : Option PyLLM) (tq iq : Option QATemplate)
        (stream ni avail : Bool) (d : MMLLM) (st : EngineState),
        initEngine mm llm tq iq stream ni avail d = .ok st →
        st.stream = true) ∧
    (∀ (st : EngineState) (q : String) (nodes : List MMNode),
        st.stream = true →
        (∀ r sn tn im, synthesize st q nodes ≠ .ok (.batch r sn tn im)) ∧
        (st.need_image = true →
          ∃ deltas, synthesize st q nodes = .ok (.streaming deltas nodes)) ∧
        (st.need_image = false →
          synthesize st q nodes = .error .attributeError)) := by
  constructor
  · intro mm llm tq iq stream ni avail d st h
    cases mm with
    | some m =>
        simp only [initEngine, Except.ok.injEq] at h
        rw [← h]
    | none =>
        simp only [initEngine] at h
        by_cases ha : avail = true
        · rw [if_pos ha] at h
          simp only [Except.ok.injEq] at h
          rw [← h]
        · rw [if_neg ha] at h
          exact absurd h (by simp)
  · intro st q nodes hs
    refine ⟨?_, ?_, ?_⟩
    · intro r sn tn im
      unfold synthesize
      rw [hs]
      cases hni : st.need_image with
      | true => simp
      | false => cases st.llm <;> simp [methodGetattrStreamComplete, Except.map]
    · intro hni
      unfold synthesize
      rw [hs, hni]
      exact ⟨_, rfl⟩
    · intro hni
      exact C4_text_streaming_synthesize st q nodes hs hni

/-- C10 counterexample: with a text LLM configured and `need_image` false,
the synchronous `synthesize` raises instead of returning a streaming
response object — the claim says every call returns one. -/
theorem C10_counterexample :
    synthesize textState "q" [] = .error .attributeError ∧
    (synthesize textState "q" []).isOk = false := ⟨rfl, rfl⟩

/-- C10 witness: the amended theorem at a concrete text-mode state — the
call takes the streaming branch and does not return a batch `Response`. -/
theorem C10_stream_hardcoded_amended_witness :
    synthesize noLLMState "q" [] = .error .attributeError ∧
    synthesize noLLMState "q" [] ≠
      .ok (.batch "r" [] [] []) :=
  ⟨(C10_stream_hardcoded_amended.2 noLLMState "q" [] rfl).2.2 rfl,
   (C10_stream_hardcoded_amended.2 noLLMState "q" [] rfl).1 "r" [] [] []⟩

/-! ## Monad-reduction helpers for `Except` -/

theorem exbind_ok (a : α) (f : α → Except PyErr β) :
    (Except.ok a >>= f) = f a := rfl

theorem exbind_err (e : PyErr) (f : α → Except PyErr β) :
    ((Except.error e : Except PyErr α) >>= f) = .error e := rfl

/-! ## Fan-out determinism: lemmas and claim C5 -/

theorem dictGet?_map_pair (f : ℕ → List RNode) (i : ℕ) :
    ∀ a : List ℕ, i ∈ a →
      dictGet? (a.map (fun j => (j, f j))) i = some (f i) := by
  intro a hi
  induction a with
  | nil => cases hi
  | cons j t ih =>
      by_cases h : j = i
      · subst h
        simp [dictGet?]
      · have hmem : i ∈ t := by
          rcases List.mem_cons.mp hi with h' | h'
          · exact absurd h'.symm h
          · exact h'
        simp [dictGet?, h, ih hmem]

theorem getD_range_map (l : List (List RNode)) :
    (List.range l.length).map (fun i => l.getD i []) = l := by
  induction l with
  | nil => rfl
  | cons x t ih =>
      rw [List.length_cons, List.range_succ_eq_map, List.map_cons, List.map_map]
      have hc : ((fun i => (x :: t).getD i []) ∘ Nat.succ) =
          fun i => t.getD i [] := by
        funext i
        rfl
      rw [hc, ih]
      rfl

/-- `asyncio.gather` re-assembles task results in task order: for any
completion order that is a permutation of the task indices, the gathered
list is the task-order result list. -/
theorem gather_eq (trs : List (List RNode)) (a : List ℕ)
    (h : a.Perm (List.range trs.length)) :
    gatherResults trs a = trs := by
  unfold gatherResults
  calc (List.range trs.length).map
        (fun i => (dictGet? (a.map (fun j => (j, trs.getD j []))) i).getD [])
      = (List.range trs.length).map (fun i => trs.getD i []) := by
        refine List.map_congr_left fun i hi => ?_
        rw [dictGet?_map_pair (fun j => trs.getD j []) i a (h.mem_iff.mpr hi)]
        rfl
    _ = trs := getD_range_map trs

/-- C5: for every fusion mode, fixed queries, and fixed per-(query,
retriever) result lists, the retrieval pipeline produces identical output
(same nodes, same order, same scores — or the identical error) under any
two completion orders of the concurrent fan-out. -/
theorem C5_fusion_determinism (mode : FUSION_MODES) (weights : List ℚ)
    (num_queries : ℕ) (sqrtFn : ℚ → ℚ) (top_k : ℕ)
    (resultOf : String × ℕ → List RNode) (queries : List String)
    (numRetrievers : ℕ) (a₁ a₂ : List ℕ)
    (h₁ : a₁.Perm (List.range (taskQueries queries numRetrievers).length))
    (h₂ : a₂.Perm (List.range (taskQueries queries numRetrievers).length)) :
    retrieveWithSchedule mode weights num_queries sqrtFn top_k resultOf
        queries numRetrievers a₁ =
      retrieveWithSchedule mode weights num_queries sqrtFn top_k resultOf
        queries numRetrievers a₂ := by
  have hlen : ((taskQueries queries numRetrievers).map resultOf).length =
      (taskQueries queries numRetrievers).length := List.length_map _ _
  have hg : runAsyncQueries resultOf queries numRetrievers a₁ =
      runAsyncQueries resultOf queries numRetrievers a₂ := by
    show ((taskQueries queries numRetrievers).zip
        (gatherResults ((taskQueries queries numRetrievers).map resultOf) a₁)).foldl
          (fun d p => dictPut d p.1 p.2) [] = _
    rw [gather_eq _ _ (by rw [hlen]; exact h₁)]
    show _ = ((taskQueries queries numRetrievers).zip
        (gatherResults ((taskQueries queries numRetrievers).map resultOf) a₂)).foldl
          (fun d p => dictPut d p.1 p.2) []
    rw [gather_eq _ _ (by rw [hlen]; exact h₂)]
  exact congrArg (fuseResults mode weights num_queries sqrtFn top_k) hg

/-- A concrete deterministic retriever behavior. -/
def sampleResultOf : String × ℕ → List RNode :=
  fun p => [⟨p.1, some 1⟩, ⟨"shared", some (1/2)⟩]

/-- C5 witness: the determinism theorem at concrete schedules `[1, 0]` and
`[0, 1]` over one query and two retrievers. -/
theorem C5_fusion_determinism_witness :
    retrieveWithSchedule .simple [] 1 (fun x => x) 5 sampleResultOf
        ["q"] 2 [1, 0] =
      retrieveWithSchedule .simple [] 1 (fun x => x) 5 sampleResultOf
        ["q"] 2 [0, 1] :=
  C5_fusion_determinism .simple [] 1 (fun x => x) 5 sampleResultOf ["q"] 2
    [1, 0] [0, 1] (by decide) (by decide)

/-! ## Relative-score normalization: lemmas and claim C6 -/

theorem if_lt_eq_min (v c : ℚ) : (if v < c then v else c) = min c v := by
  rcases lt_or_le v c with h | h
  · rw [if_pos h, min_eq_right (le_of_lt h)]
  · rw [if_neg (not_lt.mpr h), min_eq_left h]

theorem if_lt_eq_max (v c : ℚ) : (if c < v then v else c) = max c v := by
  rcases lt_or_le c v with h | h
  · rw [if_pos h, max_eq_right (le_of_lt h)]
  · rw [if_neg (not_lt.mpr h), max_eq_left h]

theorem pyMinFold_map_some (vs : List ℚ) :
    ∀ c : ℚ, pyMinFold (some c) (vs.map some) = .ok (some (vs.foldl min c)) := by
  induction vs with
  | nil => intro c; rfl
  | cons v t ih =>
      intro c
      have hstep : pyMinFold (some c) ((v :: t).map some) =
          pyMinFold (some (if v < c then v else c)) (t.map some) := by
        by_cases h : v < c <;> simp [pyMinFold, pyLt, h, exbind_ok]
      rw [hstep, if_lt_eq_min, ih (min c v), List.foldl_cons]

theorem pyMaxFold_map_some (vs : List ℚ) :
    ∀ c : ℚ, pyMaxFold (some c) (vs.map some) = .ok (some (vs.foldl max c)) := by
  induction vs with
  | nil => intro c; rfl
  | cons v t ih =>
      intro c
      have hstep : pyMaxFold (some c) ((v :: t).map some) =
          pyMaxFold (some (if c < v then v else c)) (t.map some) := by
        by_cases h : c < v <;> simp [pyMaxFold, pyGt, h, exbind_ok]
      rw [hstep, if_lt_eq_max, ih (max c v), List.foldl_cons]

theorem foldl_min_le_init (vs : List ℚ) : ∀ c : ℚ, vs.foldl min c ≤ c := by
  induction vs with
  | nil => intro c; exact le_refl c
  | cons v t ih =>
      intro c
      exact le_trans (ih (min c v)) (min_le_left c v)

theorem foldl_min_le_mem (vs : List ℚ) :
    ∀ (c v : ℚ), v ∈ vs → vs.foldl min c ≤ v := by
  induction vs with
  | nil => intro c v hv; cases hv
  | cons x t ih =>
      intro c v hv
      rcases List.mem_cons.mp hv with h | h
      · subst h
        exact le_trans (foldl_min_le_init t (min c v)) (min_le_right c v)
      · exact ih (min c x) v h

theorem le_foldl_max_init (vs : List ℚ) : ∀ c : ℚ, c ≤ vs.foldl max c := by
  induction vs with
  | nil => intro c; exact le_refl c
  | cons v t ih =>
      intro c
      exact le_trans (le_max_left c v) (ih (max c v))

theorem mem_le_foldl_max (vs : List ℚ) :
    ∀ (c v : ℚ), v ∈ vs → v ≤ vs.foldl max c := by
  induction vs with
  | nil => intro c v hv; cases hv
  | cons x t ih =>
      intro c v hv
      rcases List.mem_cons.mp hv with h | h
      · subst h
        exact le_trans (le_max_right c v) (le_foldl_max_init t (max c v))
      · exact ih (max c x) v h

/-- On a non-empty list of all-set scores, `listMinMax` (non-distance mode)
returns the fold-min and fold-max of the values. -/
theorem listMinMax_all_some (sqrtFn : ℚ → ℚ) (n₀ : RNode) (rest : List RNode)
    (hsome : ∀ n ∈ n₀ :: rest, n.score.isSome) :
    listMinMax false sqrtFn (n₀ :: rest) =
      .ok (some ((rest.map (fun n => n.score.getD 0)).foldl min (n₀.score.getD 0)),
           some ((rest.map (fun n => n.score.getD 0)).foldl max (n₀.score.getD 0))) := by
  have h₀ : n₀.score = some (n₀.score.getD 0) := by
    obtain ⟨v, hv⟩ := Option.isSome_iff_exists.mp (hsome n₀ (by simp))
    rw [hv]
    rfl
  have hrest : rest.map RNode.score =
      (rest.map (fun n => n.score.getD 0)).map some := by
    rw [List.map_map]
    refine List.map_congr_left fun n hn => ?_
    obtain ⟨v, hv⟩ := Option.isSome_iff_exists.mp (hsome n (by simp [hn]))
    simp [Function.comp, hv]
  show Except.bind (pyMin ((n₀ :: rest).map RNode.score)) _ = _
  rw [List.map_cons, h₀, hrest]
  show Except.bind (pyMinFold (some (n₀.score.getD 0)) _) _ = _
  rw [pyMinFold_map_some]
  show Except.bind (pyMaxFold (some (n₀.score.getD 0)) _) _ = _
  rw [pyMaxFold_map_some]
  rfl

/-- The min-max scaling of a value lying between the bounds stays in `[0, 1]`. -/
theorem normalize_mem_unit (mn mx v : ℚ) (h1 : mn ≤ v) (h2 : v ≤ mx) :
    ∃ r : ℚ, normalizeWithBounds (some mn) (some mx) (some v) = .ok r ∧
      0 ≤ r ∧ r ≤ 1 := by
  by_cases he : mx = mn
  · refine ⟨if 0 < mx then 1 else 0, ?_, ?_, ?_⟩
    · simp [normalizeWithBounds, pyEqO, he, pyGtZero, exbind_ok]
    · split <;> norm_num
    · split <;> norm_num
  · have hlt : mn < mx := lt_of_le_of_ne (le_trans h1 h2) (Ne.symm he)
    refine ⟨(v - mn) / (mx - mn), ?_, ?_, ?_⟩
    · simp [normalizeWithBounds, pyEqO, he, pySub, exbind_ok]
    · exact div_nonneg (sub_nonneg.mpr h1) (le_of_lt (sub_pos.mpr hlt))
    · exact (div_le_one (sub_pos.mpr hlt)).mpr (sub_le_sub_right h2 mn)

/-- When the bounds coincide, the scaled score is `1` iff the bound is
positive, else `0`. -/
theorem normalize_eq_bounds (mx : ℚ) (s : Option ℚ) :
    normalizeWithBounds (some mx) (some mx) s =
      .ok (if 0 < mx then 1 else 0) := by
  simp [normalizeWithBounds, pyEqO, pyGtZero, exbind_ok]

/-- C6: for every non-empty per-source result list with all scores set,
`_relative_score_fusion` (non-distance mode) computes that list's own
min/max, and every min-max-scaled score lies in `[0, 1]` before weighting;
when max equals min the scaled score is `1.0` iff max is positive, else
`0.0`; an empty list yields the normalization factor `(0, 0)` without
raising; and the list `[0.2, 0.8, 0.5]` normalizes to `[0.0, 1.0, 0.5]`. -/
theorem C6_relative_normalization :
    (∀ (sqrtFn : ℚ → ℚ) (n₀ : RNode) (rest : List RNode),
      (∀ n ∈ n₀ :: rest, n.score.isSome) →
      ∃ mn mx : ℚ, listMinMax false sqrtFn (n₀ :: rest) =
          .ok (some mn, some mx) ∧
        mn ≤ mx ∧
        (∀ n ∈ n₀ :: rest, ∃ r : ℚ,
          normalizeWithBounds (some mn) (some mx) n.score = .ok r ∧
          0 ≤ r ∧ r ≤ 1) ∧
        (mn = mx →
          ∀ s : Option ℚ, normalizeWithBounds (some mn) (some mx) s =
            .ok (if 0 < mx then 1 else 0))) ∧
    (∀ sqrtFn : ℚ → ℚ, listMinMax false sqrtFn [] = .ok (some 0, some 0)) ∧
    (listMinMax false (fun x => x)
        [⟨"a", some (1/5)⟩, ⟨"b", some (4/5)⟩, ⟨"c", some (1/2)⟩] =
      .ok (some (1/5), some (4/5))) ∧
    (([⟨"a", some (1/5)⟩, ⟨"b", some (4/5)⟩, ⟨"c", some (1/2)⟩] :
        List RNode).mapM
      (fun n => normalizeWithBounds (some (1/5)) (some (4/5)) n.score) =
      .ok [0, 1, 1/2]) := by
  refine ⟨?_, ?_, ?_, ?_⟩
  · intro sqrtFn n₀ rest hsome
    refine ⟨(rest.map (fun n => n.score.getD 0)).foldl min (n₀.score.getD 0),
            (rest.map (fun n => n.score.getD 0)).foldl max (n₀.score.getD 0),
            listMinMax_all_some sqrtFn n₀ rest hsome, ?_, ?_, ?_⟩
    · exact le_trans (foldl_min_le_init _ _) (le_foldl_max_init _ _)
    · intro n hn
      obtain ⟨v, hv⟩ := Option.isSome_iff_exists.mp (hsome n hn)
      have hmem : n.score.getD 0 = v := by rw [hv]; rfl
      have hbounds : (rest.map (fun n => n.score.getD 0)).foldl min
            (n₀.score.getD 0) ≤ v ∧
          v ≤ (rest.map (fun n => n.score.getD 0)).foldl max (n₀.score.getD 0) := by
        rcases List.mem_cons.mp hn with h | h
        · subst h
          rw [← hmem]
          exact ⟨foldl_min_le_init _ _, le_foldl_max_init _ _⟩
        · have : v ∈ rest.map (fun n => n.score.getD 0) :=
            List.mem_map.mpr ⟨n, h, hmem⟩
          exact ⟨foldl_min_le_mem _ _ _ this, mem_le_foldl_max _ _ _ this⟩
      rw [hv]
      exact normalize_mem_unit _ _ v hbounds.1 hbounds.2
    · intro hmnmx s
      rw [hmnmx]
      exact normalize_eq_bounds _ s
  · intro sqrtFn
    rfl
  · rw [listMinMax_all_some (fun x => x) ⟨"a", some (1/5)⟩
      [⟨"b", some (4/5)⟩, ⟨"c", some (1/2)⟩] (by decide)]
    norm_num [List.foldl_cons, List.foldl_nil, min_def, max_def]
  · simp only [List.mapM_cons, List.mapM_nil, normalizeWithBounds, pyEqO, pySub,
      exbind_ok, beq_iff_eq]
    norm_num
    rfl

/-- C6 witness: the normalization theorem applied at the concrete spec
example list, its hypothesis discharged there. -/
theorem C6_relative_normalization_witness :
    (∀ n ∈ ((⟨"a", some (1/5)⟩ : RNode) ::
        [⟨"b", some (4/5)⟩, ⟨"c", some (1/2)⟩]), n.score.isSome) ∧
    (∃ mn mx : ℚ, listMinMax false (fun x => x)
        ((⟨"a", some (1/5)⟩ : RNode) ::
          [⟨"b", some (4/5)⟩, ⟨"c", some (1/2)⟩]) =
      .ok (some mn, some mx) ∧ mn ≤ mx ∧
      (∀ n ∈ ((⟨"a", some (1/5)⟩ : RNode) ::
          [⟨"b", some (4/5)⟩, ⟨"c", some (1/2)⟩]), ∃ r : ℚ,
        normalizeWithBounds (some mn) (some mx) n.score = .ok r ∧
        0 ≤ r ∧ r ≤ 1) ∧
      (mn = mx →
        ∀ s : Option ℚ, normalizeWithBounds (some mn) (some mx) s =
          .ok (if 0 < mx then 1 else 0))) :=
  ⟨by decide,
   C6_relative_normalization.1 (fun x => x) ⟨"a", some (1/5)⟩
     [⟨"b", some (4/5)⟩, ⟨"c", some (1/2)⟩] (by decide)⟩

/-! ## Reciprocal rank fusion: the spec-side score and supporting lemmas -/

/-- The rank of the first node with content `c` in a list (`None` when the
content does not occur) — the spec's "the node's position". -/
def specRank (c : String) : List RNode → Option ℕ
  | [] => none
  | n :: rest => if n.content = c then some 0 else (specRank c rest).map (· + 1)

/-- Written from the spec sentence: the contribution of one source list to
content `c` is `1 / (rank + k)` where `rank` is the position of `c` in that
list sorted by score descending with stable tie-breaking, and `0` when `c`
does not appear in the list. -/
def specListContribution (c : String) (nodes : List RNode) : ℚ :=
  match specRank c (pySortDesc rankKey nodes) with
  | some rank => 1 / ((rank : ℚ) + rrf_k)
  | none => 0

/-- Written from the spec sentence: the fused score of content `c` is the
sum over all source lists of their reciprocal-rank contributions. -/
def specRRFScore (results : Results) (c : String) : ℚ :=
  (results.map Prod.snd).foldl (fun acc nodes => acc + specListContribution c nodes) 0

/-- The `fused_scores` dict produced by `_reciprocal_rerank_fusion`. -/
def fusedOf (results : Results) : List (String × ℚ) :=
  (results.foldl (fun acc kn => rrfList acc kn.2) ([], [])).1

/-- The action of one ranked occurrence on the fused-scores dict alone. -/
def fusedStep (f : List (String × ℚ)) (p : ℕ × String) : List (String × ℚ) :=
  dictUpdAdd f p.2 (1 / ((p.1 : ℚ) + rrf_k))

/-- The contribution of one ranked occurrence to content `c`. -/
def pairContrib (c : String) (p : ℕ × String) : ℚ :=
  if c = p.2 then 1 / ((p.1 : ℚ) + rrf_k) else 0

/-- Dict lookup defaulting to `0.0`. -/
def lookupQ (d : List (String × ℚ)) (c : String) : ℚ := (dictGet? d c).getD 0

theorem lookupQ_dictUpdAdd (d : List (String × ℚ)) (k c : String) (v : ℚ) :
    lookupQ (dictUpdAdd d k v) c = lookupQ d c + (if c = k then v else 0) := by
  induction d with
  | nil =>
      unfold dictUpdAdd lookupQ dictGet?
      by_cases h : c = k
      · rw [if_pos h.symm, if_pos h]
        simp [dictGet?]
      · rw [if_neg (fun hh : k = c => h hh.symm), if_neg h]
        simp [dictGet?]
  | cons e rest ih =>
      unfold dictUpdAdd
      by_cases h1 : e.1 = k
      · rw [if_pos h1]
        unfold lookupQ dictGet?
        by_cases h2 : e.1 = c
        · rw [if_pos h2, if_pos h2, if_pos (h2.symm.trans h1)]
          simp
        · rw [if_neg h2, if_neg h2,
            if_neg (fun hh : c = k => h2 (h1.trans hh.symm))]
          simp
      · rw [if_neg h1]
        unfold lookupQ dictGet?
        by_cases h2 : e.1 = c
        · rw [if_pos h2, if_pos h2,
            if_neg (fun hh : c = k => h1 (h2.trans hh))]
          simp
        · rw [if_neg h2, if_neg h2]
          exact ih

theorem mem_keys_dictUpdAdd (d : List (String × ℚ)) (k c : String) (v : ℚ) :
    c ∈ dictKeys (dictUpdAdd d k v) ↔ c ∈ dictKeys d ∨ c = k := by
  induction d with
  | nil => simp [dictUpdAdd, dictKeys, eq_comm] <;> tauto
  | cons e rest ih =>
      unfold dictUpdAdd
      by_cases h : e.1 = k
      · rw [if_pos h]
        subst h
        simp [dictKeys, List.mem_cons] <;> tauto
      · rw [if_neg h]
        simp only [dictKeys, List.map_cons, List.mem_cons] at ih ⊢
        rw [ih]
        tauto

theorem nodup_keys_dictUpdAdd (d : List (String × ℚ)) (k : String) (v : ℚ)
    (h : (dictKeys d).Nodup) : (dictKeys (dictUpdAdd d k v)).Nodup := by
  induction d with
  | nil => simp [dictUpdAdd, dictKeys]
  | cons e rest ih =>
      unfold dictUpdAdd
      by_cases h1 : e.1 = k
      · rw [if_pos h1]
        simpa [dictKeys] using h
      · rw [if_neg h1]
        simp only [dictKeys, List.map_cons, List.nodup_cons] at h ⊢
        obtain ⟨hnotin, hnd⟩ := h
        refine ⟨?_, ih hnd⟩
        intro hc
        rcases (mem_keys_dictUpdAdd rest k e.1 v).mp hc with hmem | heq
        · exact hnotin hmem
        · exact h1 heq

theorem dictGet?_eq_some_of_mem [DecidableEq κ] {d : List (κ × ν)} {c : κ}
    {v : ν} (hnd : (dictKeys d).Nodup) (h : (c, v) ∈ d) :
    dictGet? d c = some v := by
  induction d with
  | nil => cases h
  | cons e rest ih =>
      simp only [dictKeys, List.map_cons, List.nodup_cons] at hnd
      rcases List.mem_cons.mp h with he | hmem
      · rw [← he]
        simp [dictGet?]
      · have hne : e.1 ≠ c := by
          intro hh
          apply hnd.1
          rw [hh]
          exact List.mem_map.mpr ⟨(c, v), hmem, rfl⟩
        simpa [dictGet?, hne] using ih hnd.2 hmem

theorem mem_of_dictGet?_eq_some [DecidableEq κ] {d : List (κ × ν)} {c : κ}
    {v : ν} (h : dictGet? d c = some v) : (c, v) ∈ d := by
  induction d with
  | nil => cases h
  | cons e rest ih =>
      simp only [dictGet?] at h
      by_cases h1 : e.1 = c
      · rw [if_pos h1] at h
        have h2 : e.2 = v := Option.some.injEq _ _ ▸ h
        exact List.mem_cons.mpr (Or.inl (by rw [← h1, ← h2]))
      · rw [if_neg h1] at h
        exact List.mem_cons_of_mem _ (ih h)

theorem dictPut_forall [DecidableEq κ] {P : κ × ν → Prop}
    {d : List (κ × ν)} (hd : ∀ e ∈ d, P e) {k : κ} {v : ν} (hkv : P (k, v)) :
    ∀ e ∈ dictPut d k v, P e := by
  induction d with
  | nil =>
      intro e he
      simp only [dictPut, List.mem_singleton] at he
      exact he ▸ hkv
  | cons x rest ih =>
      intro e he
      by_cases h1 : x.1 = k
      · simp only [dictPut, h1, if_pos, List.mem_cons] at he
        rcases he with he | he
        · exact he ▸ hkv
        · exact hd e (List.mem_cons_of_mem _ he)
      · simp only [dictPut, h1, if_neg, not_false_iff, List.mem_cons] at he
        rcases he with he | he
        · exact hd e (he ▸ List.mem_cons_self x rest)
        · exact ih (fun e' he' => hd e' (List.mem_cons_of_mem _ he')) e he

theorem foldl_rrfStep_fst (pairs : List (ℕ × RNode)) :
    ∀ acc : List (String × ℚ) × List (String × RNode),
      (pairs.foldl rrfStep acc).1 =
        (pairs.map (fun p => (p.1, p.2.content))).foldl fusedStep acc.1 := by
  induction pairs with
  | nil => intro acc; rfl
  | cons p t ih =>
      intro acc
      rw [List.foldl_cons, List.map_cons, List.foldl_cons, ih]
      rfl

theorem lookupQ_foldl_fusedStep (ps : List (ℕ × String)) :
    ∀ (f : List (String × ℚ)) (c : String),
      lookupQ (ps.foldl fusedStep f) c =
        lookupQ f c + (ps.map (pairContrib c)).sum := by
  induction ps with
  | nil => intro f c; simp
  | cons p t ih =>
      intro f c
      rw [List.foldl_cons, ih, List.map_cons, List.sum_cons]
      rw [show fusedStep f p = dictUpdAdd f p.2 (1 / ((p.1 : ℚ) + rrf_k)) from rfl]
      rw [lookupQ_dictUpdAdd]
      unfold pairContrib
      ring

theorem mem_keys_foldl_fusedStep (ps : List (ℕ × String)) :
    ∀ (f : List (String × ℚ)) (c : String),
      (c ∈ dictKeys (ps.foldl fusedStep f) ↔
        c ∈ dictKeys f ∨ ∃ p ∈ ps, p.2 = c) := by
  induction ps with
  | nil => intro f c; simp
  | cons p t ih =>
      intro f c
      rw [List.foldl_cons, ih]
      rw [show fusedStep f p = dictUpdAdd f p.2 (1 / ((p.1 : ℚ) + rrf_k)) from rfl]
      rw [mem_keys_dictUpdAdd]
      simp only [List.mem_cons]
      constructor
      · rintro (⟨h | h⟩ | ⟨q, hq, hqc⟩)
        · exact Or.inl h
        · exact Or.inr ⟨p, Or.inl rfl, h.symm⟩
        · exact Or.inr ⟨q, Or.inr hq, hqc⟩
      · rintro (h | ⟨q, hq | hq, hqc⟩)
        · exact Or.inl (Or.inl h)
        · exact Or.inl (Or.inr (hq ▸ hqc.symm))
        · exact Or.inr ⟨q, hq, hqc⟩

theorem nodup_keys_foldl_fusedStep (ps : List (ℕ × String)) :
    ∀ f : List (String × ℚ), (dictKeys f).Nodup →
      (dictKeys (ps.foldl fusedStep f)).Nodup := by
  induction ps with
  | nil => intro f h; exact h
  | cons p t ih =>
      intro f h
      exact ih _ (nodup_keys_dictUpdAdd _ _ _ h)

theorem specRank_cons (c : String) (n : RNode) (rest : List RNode) :
    specRank c (n :: rest) =
      if n.content = c then some 0 else (specRank c rest).map (· + 1) := rfl

theorem contrib_sum_not_mem (c : String) :
    ∀ (s : List RNode) (i : ℕ), c ∉ s.map RNode.content →
      (((s.enumFrom i).map (fun p => (p.1, p.2.content))).map
        (pairContrib c)).sum = 0 := by
  intro s
  induction s with
  | nil => intro i _; rfl
  | cons n t ih =>
      intro i hc
      rw [List.enumFrom_cons, List.map_cons, List.map_cons, List.sum_cons]
      have hnc : ¬ c = n.content := by
        intro hh
        exact hc (by simp [hh])
      rw [show pairContrib c (i, n.content) = 0 by
        unfold pairContrib
        rw [if_neg hnc]]
      rw [ih (i + 1) (fun hh => hc (by
        rw [List.map_cons]
        exact List.mem_cons_of_mem _ hh))]
      simp

theorem contrib_sum_nodup (c : String) :
    ∀ (s : List RNode) (i : ℕ), (s.map RNode.content).Nodup →
      (((s.enumFrom i).map (fun p => (p.1, p.2.content))).map
        (pairContrib c)).sum =
        (match specRank c s with
         | some j => 1 / (((i + j : ℕ) : ℚ) + rrf_k)
         | none => 0) := by
  intro s
  induction s with
  | nil => intro i _; rfl
  | cons n t ih =>
      intro i hnd
      rw [List.enumFrom_cons, List.map_cons, List.map_cons, List.sum_cons]
      simp only [List.map_cons, List.nodup_cons] at hnd
      obtain ⟨hni, hndt⟩ := hnd
      by_cases h : n.content = c
      · rw [show specRank c (n :: t) = some 0 by
            rw [specRank_cons, if_pos h]]
        rw [show pairContrib c (i, n.content) = 1 / ((i : ℚ) + rrf_k) by
            unfold pairContrib
            rw [if_pos h.symm]]
        rw [contrib_sum_not_mem c t (i + 1) (h ▸ hni)]
        norm_num
      · rw [show specRank c (n :: t) = (specRank c t).map (· + 1) by
            rw [specRank_cons, if_neg h]]
        rw [show pairContrib c (i, n.content) = 0 by
            unfold pairContrib
            rw [if_neg (fun hh : c = n.content => h hh.symm)]]
        rw [ih (i + 1) hndt]
        cases hr : specRank c t with
        | none => simp
        | some j =>
            simp only [Option.map_some]
            rw [show i + 1 + j = i + (j + 1) by omega]
            norm_num

theorem foldl_rrfList_fst (results : Results) :
    ∀ acc : List (String × ℚ) × List (String × RNode),
      (results.foldl (fun a kn => rrfList a kn.2) acc).1 =
        results.foldl
          (fun f kn =>
            (((pySortDesc rankKey kn.2).enum).map
              (fun p => (p.1, p.2.content))).foldl fusedStep f) acc.1 := by
  induction results with
  | nil => intro acc; rfl
  | cons kn rest ih =>
      intro acc
      rw [List.foldl_cons, List.foldl_cons, ih]
      congr 1
      exact foldl_rrfStep_fst _ acc

theorem foldl_add_eq_sum (l : List α) (g : α → ℚ) :
    ∀ a : ℚ, l.foldl (fun acc x => acc + g x) a = a + (l.map g).sum := by
  induction l with
  | nil => intro a; simp
  | cons x t ih =>
      intro a
      rw [List.foldl_cons, ih, List.map_cons, List.sum_cons]
      ring

/-- The per-list pair sum equals the spec-side contribution when the list's
contents are duplicate-free. -/
theorem contrib_sum_spec (c : String) (nodes : List RNode)
    (hnd : (nodes.map RNode.content).Nodup) :
    ((((pySortDesc rankKey nodes).enum).map (fun p => (p.1, p.2.content))).map
      (pairContrib c)).sum = specListContribution c nodes := by
  have hnds : ((pySortDesc rankKey nodes).map RNode.content).Nodup :=
    (((pySortDesc_perm rankKey nodes).map RNode.content).symm).nodup hnd
  show ((((pySortDesc rankKey nodes).enumFrom 0).map
    (fun p => (p.1, p.2.content))).map (pairContrib c)).sum = _
  rw [contrib_sum_nodup c (pySortDesc rankKey nodes) 0 hnds]
  unfold specListContribution
  cases hr : specRank c (pySortDesc rankKey nodes) with
  | none => rfl
  | some j => simp

theorem lookupQ_foldl_lists (results : Results) (c : String)
    (h : ∀ kn ∈ results, (kn.2.map RNode.content).Nodup) :
    ∀ f, lookupQ (results.foldl
        (fun f kn => (((pySortDesc rankKey kn.2).enum).map
          (fun p => (p.1, p.2.content))).foldl fusedStep f) f) c =
      lookupQ f c +
        ((results.map Prod.snd).map (specListContribution c)).sum := by
  induction results with
  | nil => intro f; simp
  | cons kn rest ih =>
      intro f
      rw [List.foldl_cons,
        ih (fun kn' h' => h kn' (List.mem_cons_of_mem _ h')),
        lookupQ_foldl_fusedStep,
        contrib_sum_spec c kn.2 (h kn (List.mem_cons_self kn rest)),
        List.map_cons, List.map_cons, List.sum_cons]
      ring

theorem lookupQ_fusedOf (results : Results)
    (h : ∀ kn ∈ results, (kn.2.map RNode.content).Nodup) (c : String) :
    lookupQ (fusedOf results) c = specRRFScore results c := by
  unfold fusedOf
  rw [foldl_rrfList_fst]
  rw [lookupQ_foldl_lists results c h []]
  unfold specRRFScore
  rw [foldl_add_eq_sum]
  simp [lookupQ, dictGet?]

theorem mem_keys_foldl_lists (results : Results) (c : String) :
    ∀ f, c ∈ dictKeys (results.foldl
        (fun f kn => (((pySortDesc rankKey kn.2).enum).map
          (fun p => (p.1, p.2.content))).foldl fusedStep f) f) ↔
      c ∈ dictKeys f ∨ ∃ kn ∈ results, ∃ n ∈ kn.2, n.content = c := by
  induction results with
  | nil => intro f; simp
  | cons kn rest ih =>
      intro f
      rw [List.foldl_cons, ih, mem_keys_foldl_fusedStep]
      have hiff : (∃ p ∈ ((pySortDesc rankKey kn.2).enum).map
            (fun p => (p.1, p.2.content)), p.2 = c) ↔
          ∃ n ∈ kn.2, n.content = c := by
        constructor
        · rintro ⟨p, hp, hpc⟩
          obtain ⟨q, hq, hqe⟩ := List.mem_map.mp hp
          have hq2 : q.2 ∈ pySortDesc rankKey kn.2 := by
            have hsnd := List.enum_map_snd (pySortDesc rankKey kn.2)
            exact hsnd ▸ List.mem_map_of_mem Prod.snd hq
          refine ⟨q.2, (pySortDesc_perm rankKey kn.2).subset hq2, ?_⟩
          rw [← hpc, ← hqe]
        · rintro ⟨n, hn, hnc⟩
          have hs : n ∈ pySortDesc rankKey kn.2 :=
            ((pySortDesc_perm rankKey kn.2).mem_iff).mpr hn
          have : n ∈ (pySortDesc rankKey kn.2).enum.map Prod.snd := by
            rw [List.enum_map_snd]
            exact hs
          obtain ⟨q, hq, hqe⟩ := List.mem_map.mp this
          exact ⟨(q.1, q.2.content), List.mem_map_of_mem _ hq, by rw [hqe, hnc]⟩
      rw [hiff]
      simp only [List.mem_cons]
      constructor
      · rintro ((h | h) | h)
        · exact Or.inl h
        · exact Or.inr ⟨kn, Or.inl rfl, h⟩
        · rcases h with ⟨kn', hkn', hn⟩
          exact Or.inr ⟨kn', Or.inr hkn', hn⟩
      · rintro (h | ⟨kn', hkn' | hkn', hn⟩)
        · exact Or.inl (Or.inl h)
        · exact Or.inl (Or.inr (hkn' ▸ hn))
        · exact Or.inr ⟨kn', hkn', hn⟩

theorem mem_keys_fusedOf (results : Results) (c : String) :
    c ∈ dictKeys (fusedOf results) ↔
      ∃ kn ∈ results, ∃ n ∈ kn.2, n.content = c := by
  unfold fusedOf
  rw [foldl_rrfList_fst, mem_keys_foldl_lists]
  simp [dictKeys]

theorem nodup_keys_foldl_lists (results : Results) :
    ∀ f, (dictKeys f).Nodup →
      (dictKeys (results.foldl
        (fun f kn => (((pySortDesc rankKey kn.2).enum).map
          (fun p => (p.1, p.2.content))).foldl fusedStep f) f)).Nodup := by
  induction results with
  | nil => intro f h; exact h
  | cons kn rest ih =>
      intro f h
      exact ih _ (nodup_keys_foldl_fusedStep _ _ h)

theorem nodup_keys_fusedOf (results : Results) :
    (dictKeys (fusedOf results)).Nodup := by
  unfold fusedOf
  rw [foldl_rrfList_fst]
  exact nodup_keys_foldl_lists results [] (by simp [dictKeys])

theorem rrfStep_snd_inv (pairs : List (ℕ × RNode)) :
    ∀ acc : List (String × ℚ) × List (String × RNode),
      (∀ e ∈ acc.2, (e.2 : RNode).content = e.1) →
      ∀ e ∈ (pairs.foldl rrfStep acc).2, e.2.content = e.1 := by
  induction pairs with
  | nil => intro acc h; exact h
  | cons p t ih =>
      intro acc h
      rw [List.foldl_cons]
      exact ih _ (dictPut_forall h rfl)

theorem t2n_content_inv (results : Results) :
    ∀ e ∈ (results.foldl (fun acc kn => rrfList acc kn.2) ([], [])).2,
      (e.2 : RNode).content = e.1 := by
  suffices haux : ∀ (rs : Results) (acc : List (String × ℚ) × List (String × RNode)),
      (∀ e ∈ acc.2, (e.2 : RNode).content = e.1) →
      ∀ e ∈ (rs.foldl (fun a kn => rrfList a kn.2) acc).2, e.2.content = e.1 by
    exact haux results ([], []) (by simp)
  intro rs
  induction rs with
  | nil => intro acc h; exact h
  | cons kn rest ih =>
      intro acc h
      rw [List.foldl_cons]
      exact ih _ (rrfStep_snd_inv _ acc h)

/-- `_reciprocal_rerank_fusion` emits, in the sorted order of the fused
dict, one node per kept content, its score overwritten with the fused
score. -/
theorem rrf_output_form (results : Results) :
    reciprocalRerankFusion results =
      (pySortDesc (fun e : String × ℚ => e.2) (fusedOf results)).map
        (fun e => (⟨e.1, some e.2⟩ : RNode)) := by
  unfold reciprocalRerankFusion fusedOf
  refine List.map_congr_left fun e he => ?_
  cases hg : dictGet?
      (results.foldl (fun acc kn => rrfList acc kn.2) ([], [])).2 e.1 with
  | none => rfl
  | some n =>
      have hc : n.content = e.1 :=
        t2n_content_inv results (e.1, n) (mem_of_dictGet?_eq_some hg)
      show ({ n with score := some e.2 } : RNode) = ⟨e.1, some e.2⟩
      rw [show ({ n with score := some e.2 } : RNode) =
        ⟨n.content, some e.2⟩ from rfl, hc]

/-- The end-to-end example of the claim: two retrievers return
`[("a", 0.9), ("b", 0.5)]` and `[("b", 0.6), ("c", 0.3)]`. -/
def rrfExample : Results :=
  [(("q", 0), [⟨"a", some (9/10)⟩, ⟨"b", some (1/2)⟩]),
   (("q", 1), [⟨"b", some (3/5)⟩, ⟨"c", some (3/10)⟩])]

theorem rrfExample_eval :
    ((reciprocalRerankFusion rrfExample).take 2).map RNode.content =
      ["b", "a"] := by
  norm_num [reciprocalRerankFusion, rrfExample, rrfList, rrfStep, pySortDesc,
    List.insertionSort, List.orderedInsert, descBy, rankKey, dictUpdAdd,
    dictPut, dictGet?, rrf_k, List.enum, List.enumFrom, List.foldl] <;>
  decide

/-- C1: reciprocal-rank fusion assigns every distinct content the sum over
source lists of `1 / (rank + 60)` at that content's stable-sorted rank,
de-duplicates by exact content equality, sorts the output by fused score
descending; and on the two example lists with `top_k = 2` the node with
content "b" comes first.  (Source lists are required duplicate-free in
content, the only case in which the spec's "the node's position" is
well-defined.) -/
theorem C1_reciprocal_rank_fusion :
    (∀ results : Results,
      (∀ kn ∈ results, (kn.2.map RNode.content).Nodup) →
      (∀ n ∈ reciprocalRerankFusion results,
          n.score = some (specRRFScore results n.content)) ∧
      ((reciprocalRerankFusion results).map RNode.content).Nodup ∧
      (reciprocalRerankFusion results).Pairwise
        (fun a b => rankKey b ≤ rankKey a) ∧
      (∀ c : String, (∃ n ∈ reciprocalRerankFusion results, n.content = c) ↔
        ∃ kn ∈ results, ∃ n ∈ kn.2, n.content = c)) ∧
    ((reciprocalRerankFusion rrfExample).take 2).map RNode.content =
      ["b", "a"] := by
  constructor
  · intro results h
    rw [rrf_output_form]
    have hperm : (pySortDesc (fun e : String × ℚ => e.2) (fusedOf results)).Perm
        (fusedOf results) := pySortDesc_perm _ _
    have hnd : (dictKeys (fusedOf results)).Nodup := nodup_keys_fusedOf results
    refine ⟨?_, ?_, ?_, ?_⟩
    · intro n hn
      obtain ⟨e, he, hne⟩ := List.mem_map.mp hn
      have hef : e ∈ fusedOf results := hperm.subset he
      have hget : dictGet? (fusedOf results) e.1 = some e.2 :=
        dictGet?_eq_some_of_mem hnd hef
      have hl : lookupQ (fusedOf results) e.1 = e.2 := by
        rw [lookupQ, hget]
        rfl
      rw [← hne]
      show some e.2 = some (specRRFScore results e.1)
      rw [← lookupQ_fusedOf results h e.1, hl]
    · rw [List.map_map]
      exact ((hperm.map Prod.fst).symm).nodup hnd
    · refine List.pairwise_map.mpr ?_
      exact pySortDesc_sorted (fun e : String × ℚ => e.2) (fusedOf results)
    · intro c
      constructor
      · rintro ⟨n, hn, hnc⟩
        obtain ⟨e, he, hne⟩ := List.mem_map.mp hn
        refine (mem_keys_fusedOf results c).mp ?_
        have : e.1 = c := by rw [← hnc, ← hne]
        rw [← this]
        exact List.mem_map_of_mem Prod.fst (hperm.subset he)
      · intro h'
        have hc : c ∈ dictKeys (fusedOf results) :=
          (mem_keys_fusedOf results c).mpr h'
        obtain ⟨e, he, hec⟩ := List.mem_map.mp hc
        refine ⟨⟨e.1, some e.2⟩, List.mem_map_of_mem _ (hperm.mem_iff.mpr he), hec⟩
  · exact rrfExample_eval

/-- C1 witness: the fusion theorem applied at the example input, its
duplicate-freedom hypothesis discharged there. -/
theorem C1_reciprocal_rank_fusion_witness :
    (∀ kn ∈ rrfExample, (kn.2.map RNode.content).Nodup) ∧
    ((∀ n ∈ reciprocalRerankFusion rrfExample,
        n.score = some (specRRFScore rrfExample n.content)) ∧
      ((reciprocalRerankFusion rrfExample).map RNode.content).Nodup ∧
      (reciprocalRerankFusion rrfExample).Pairwise
        (fun a b => rankKey b ≤ rankKey a) ∧
      (∀ c : String, (∃ n ∈ reciprocalRerankFusion rrfExample, n.content = c) ↔
        ∃ kn ∈ rrfExample, ∃ n ∈ kn.2, n.content = c)) :=
  ⟨by decide, C1_reciprocal_rank_fusion.1 rrfExample (by decide)⟩

/-! ## Claim C3: `None` scores across the fusion strategies -/

/-- Replace a missing score by a set `0.0`. -/
def zeroNone (n : RNode) : RNode := ⟨n.content, some (n.score.getD 0)⟩

/-- Replace every missing score of a result mapping by a set `0.0`. -/
def zeroNoneResults (results : Results) : Results :=
  results.map (fun kn => (kn.1, kn.2.map zeroNone))

theorem fusedOf_zeroNone (results : Results) :
    fusedOf (zeroNoneResults results) = fusedOf results := by
  unfold fusedOf zeroNoneResults
  rw [foldl_rrfList_fst, foldl_rrfList_fst, List.foldl_map]
  have hF : (fun (f : List (String × ℚ)) (kn : (String × ℕ) × List RNode) =>
      (((pySortDesc rankKey ((kn.1, kn.2.map zeroNone) : (String × ℕ) × List RNode).2).enum).map
        (fun p => (p.1, p.2.content))).foldl fusedStep f) =
      fun f kn => (((pySortDesc rankKey kn.2).enum).map
        (fun p => (p.1, p.2.content))).foldl fusedStep f := by
    funext f kn
    congr 1
    rw [show pySortDesc rankKey
          ((kn.1, kn.2.map zeroNone) : (String × ℕ) × List RNode).2 =
        (pySortDesc rankKey kn.2).map zeroNone from
      pySortDesc_map (fun a b => Iff.rfl) kn.2]
    rw [List.enum_map, List.map_map]
    exact List.map_congr_left fun p _ => rfl
  rw [hF]

/-- The concatenated node traversal of a result mapping, in the order the
fusion fold visits it (`results.values()` order, each list front to back). -/
def allNodesOf (results : Results) : List RNode :=
  results.flatMap (fun kn => kn.2)

theorem allNodesOf_cons (kn : (String × ℕ) × List RNode) (rest : Results) :
    allNodesOf (kn :: rest) = kn.2 ++ allNodesOf rest := rfl

theorem exbind_ok2 (a : α) (f : α → Except PyErr β) :
    Except.bind (Except.ok a) f = f a := rfl

theorem exbind_err2 (e : PyErr) (f : α → Except PyErr β) :
    Except.bind (Except.error e : Except PyErr α) f = .error e := rfl

theorem pyLt_none_right (y : Option ℚ) : pyLt y none = .error .typeError := by
  cases y <;> rfl

theorem pyLt_none_left (c : ℚ) : pyLt none (some c) = .error .typeError := rfl

theorem pyGt_none_right (y : Option ℚ) : pyGt y none = .error .typeError := by
  cases y <;> rfl

theorem pyGt_none_left (c : ℚ) : pyGt none (some c) = .error .typeError := rfl

/-- A `mapM` over `Except` fails with `TypeError` as soon as one element
does, provided every element either succeeds or fails with `TypeError`. -/
theorem mapM_error_of_mem (f : α → Except PyErr β) :
    ∀ l : List α,
      (∀ x ∈ l, (∃ y, f x = .ok y) ∨ f x = .error .typeError) →
      (∃ x ∈ l, f x = .error .typeError) →
      l.mapM f = .error .typeError := by
  intro l
  induction l with
  | nil =>
      intro _ hex
      rcases hex with ⟨x, hx, -⟩
      cases hx
  | cons a t ih =>
      intro hall hex
      rcases hall a (List.mem_cons_self a t) with ⟨y, hy⟩ | hy
      · rw [List.mapM_cons, hy, exbind_ok]
        have hext : ∃ x ∈ t, f x = .error .typeError := by
          rcases hex with ⟨x, hx, hfx⟩
          rcases List.mem_cons.mp hx with rfl | hxt
          · rw [hy] at hfx
            cases hfx
          · exact ⟨x, hxt, hfx⟩
        rw [ih (fun x hx => hall x (List.mem_cons_of_mem _ hx)) hext]
        rfl
      · rw [List.mapM_cons, hy]
        rfl

/-- A `mapM` over `Except` whose every element succeeds returns a list, with
the per-element images recoverable through `zip`. -/
theorem mapM_ok_of_all (f : α → Except PyErr β) :
    ∀ l : List α, (∀ x ∈ l, ∃ y, f x = .ok y) →
      ∃ ys, l.mapM f = .ok ys ∧ (∀ p ∈ l.zip ys, f p.1 = .ok p.2) ∧
        (∀ x ∈ l, ∃ y, (x, y) ∈ l.zip ys) := by
  intro l
  induction l with
  | nil =>
      intro _
      exact ⟨[], rfl, by simp, by simp⟩
  | cons a t ih =>
      intro hall
      obtain ⟨y, hy⟩ := hall a (List.mem_cons_self a t)
      obtain ⟨ys, hys, hzip, hmem⟩ := ih (fun x hx => hall x (List.mem_cons_of_mem _ hx))
      refine ⟨y :: ys, ?_, ?_, ?_⟩
      · rw [List.mapM_cons, hy, exbind_ok, hys, exbind_ok]
        rfl
      · intro p hp
        rcases List.mem_cons.mp (by simpa [List.zip_cons_cons] using hp) with rfl | hpt
        · exact hy
        · exact hzip p hpt
      · intro x hx
        rcases List.mem_cons.mp hx with rfl | hxt
        · exact ⟨y, by simp [List.zip_cons_cons]⟩
        · obtain ⟨y', hy'⟩ := hmem x hxt
          exact ⟨y', by simp [List.zip_cons_cons, hy']⟩

/-- `sum()` raises `TypeError` whenever the list holds a `None`. -/
theorem pySum_has_none (l : List (Option ℚ)) (h : ∃ x ∈ l, x = none) :
    pySum l = .error .typeError := by
  suffices haux : ∀ (l : List (Option ℚ)) (acc : ℚ), (∃ x ∈ l, x = none) →
      l.foldlM (fun acc x => match x with
        | some v => (Except.ok (acc + v) : Except PyErr ℚ)
        | none => .error .typeError) acc = .error .typeError by
    exact haux l 0 h
  intro l
  induction l with
  | nil =>
      intro acc h
      rcases h with ⟨x, hx, -⟩
      cases hx
  | cons x t ih =>
      intro acc h
      rw [List.foldlM_cons]
      cases hx : x with
      | none => rfl
      | some v =>
          have hex : ∃ y ∈ t, y = none := by
            rcases h with ⟨y, hy, hyn⟩
            rcases List.mem_cons.mp hy with rfl | hyt
            · rw [hx] at hyn
              cases hyn
            · exact ⟨y, hyt, hyn⟩
          exact ih (acc + v) hex

/-- `sum()` of an all-set list is the value sum. -/
theorem pySum_map_some (vs : List ℚ) : pySum (vs.map some) = .ok vs.sum := by
  suffices haux : ∀ (vs : List ℚ) (acc : ℚ),
      (vs.map some).foldlM (fun acc x => match x with
        | some v => (Except.ok (acc + v) : Except PyErr ℚ)
        | none => .error .typeError) acc = .ok (acc + vs.sum) by
    have h := haux vs 0
    rw [zero_add] at h
    exact h
  intro vs
  induction vs with
  | nil =>
      intro acc
      rw [List.map_nil, List.foldlM_nil, List.sum_nil, add_zero]
      rfl
  | cons v t ih =>
      intro acc
      rw [List.map_cons, List.foldlM_cons, List.sum_cons, ← add_assoc]
      exact ih (acc + v)

/-- The `min()` loop raises `TypeError` when the current value is `None` and a
comparison remains, or when any remaining item is `None`. -/
theorem pyMinFold_none_err :
    ∀ (l : List (Option ℚ)) (cur : Option ℚ),
      ((cur = none ∧ l ≠ []) ∨ (∃ x ∈ l, x = none)) →
      pyMinFold cur l = .error .typeError := by
  intro l
  induction l with
  | nil =>
      intro cur h
      rcases h with ⟨-, hne⟩ | ⟨x, hx, -⟩
      · exact absurd rfl hne
      · cases hx
  | cons y ys ih =>
      intro cur h
      rw [pyMinFold]
      cases hcur : cur with
      | none =>
          show Except.bind (pyLt y none) _ = _
          rw [pyLt_none_right]
          rfl
      | some c =>
          cases hy : y with
          | none =>
              show Except.bind (pyLt none (some c)) _ = _
              rw [pyLt_none_left]
              rfl
          | some v =>
              have hex : ∃ x ∈ ys, x = none := by
                rcases h with ⟨hc, -⟩ | ⟨x, hx, hxn⟩
                · rw [hcur] at hc
                  cases hc
                · rcases List.mem_cons.mp hx with rfl | hxt
                  · rw [hy] at hxn
                    cases hxn
                  · exact ⟨x, hxt, hxn⟩
              show Except.bind (pyLt (some v) (some c)) _ = _
              rw [show pyLt (some v) (some c) = .ok (decide (v < c)) from rfl]
              exact ih _ (Or.inr hex)

/-- The `max()` loop, same `None` behaviour as the `min()` loop. -/
theorem pyMaxFold_none_err :
    ∀ (l : List (Option ℚ)) (cur : Option ℚ),
      ((cur = none ∧ l ≠ []) ∨ (∃ x ∈ l, x = none)) →
      pyMaxFold cur l = .error .typeError := by
  intro l
  induction l with
  | nil =>
      intro cur h
      rcases h with ⟨-, hne⟩ | ⟨x, hx, -⟩
      · exact absurd rfl hne
      · cases hx
  | cons y ys ih =>
      intro cur h
      rw [pyMaxFold]
      cases hcur : cur with
      | none =>
          show Except.bind (pyGt y none) _ = _
          rw [pyGt_none_right]
          rfl
      | some c =>
          cases hy : y with
          | none =>
              show Except.bind (pyGt none (some c)) _ = _
              rw [pyGt_none_left]
              rfl
          | some v =>
              have hex : ∃ x ∈ ys, x = none := by
                rcases h with ⟨hc, -⟩ | ⟨x, hx, hxn⟩
                · rw [hcur] at hc
                  cases hc
                · rcases List.mem_cons.mp hx with rfl | hxt
                  · rw [hy] at hxn
                    cases hxn
                  · exact ⟨x, hxt, hxn⟩
              show Except.bind (pyGt (some v) (some c)) _ = _
              rw [show pyGt (some v) (some c) = .ok (decide (c < v)) from rfl]
              exact ih _ (Or.inr hex)

/-- `min()` of a list holding a `None` either is the no-comparison singleton
`min([None]) = None` or raises `TypeError`. -/
theorem pyMin_has_none (l : List (Option ℚ)) (h : ∃ x ∈ l, x = none) :
    (l = [none] ∧ pyMin l = .ok none) ∨ pyMin l = .error .typeError := by
  cases l with
  | nil =>
      rcases h with ⟨x, hx, -⟩
      cases hx
  | cons x xs =>
      cases xs with
      | nil =>
          rcases h with ⟨y, hy, hyn⟩
          have hx : x = none := by
            rcases List.mem_cons.mp hy with rfl | hyt
            · exact hyn
            · cases hyt
          subst hx
          exact Or.inl ⟨rfl, rfl⟩
      | cons y ys =>
          right
          cases hx : x with
          | none =>
              exact pyMinFold_none_err (y :: ys) none (Or.inl ⟨rfl, by simp⟩)
          | some v =>
              have hex : ∃ z ∈ y :: ys, z = none := by
                rcases h with ⟨z, hz, hzn⟩
                rcases List.mem_cons.mp hz with rfl | hzt
                · rw [hx] at hzn
                  cases hzn
                · exact ⟨z, hzt, hzn⟩
              exact pyMinFold_none_err (y :: ys) (some v) (Or.inr hex)

/-- On an all-set list, `listMinMax` succeeds with set bounds in both the
min/max and the distance-based (`mean ± 3·stddev`) variants. -/
theorem listMinMax_all_some_ok (dist_based : Bool) (sqrtFn : ℚ → ℚ)
    (nodes : List RNode) (h : ∀ n ∈ nodes, n.score.isSome) :
    ∃ mn mx : ℚ, listMinMax dist_based sqrtFn nodes = .ok (some mn, some mx) := by
  cases nodes with
  | nil => exact ⟨0, 0, rfl⟩
  | cons n₀ rest =>
      cases dist_based with
      | false => exact ⟨_, _, listMinMax_all_some sqrtFn n₀ rest h⟩
      | true =>
          have hmap : (n₀ :: rest).map RNode.score =
              ((n₀ :: rest).map (fun n => n.score.getD 0)).map some := by
            rw [List.map_map]
            refine List.map_congr_left fun n hn => ?_
            obtain ⟨v, hv⟩ := Option.isSome_iff_exists.mp (h n hn)
            simp [Function.comp, hv]
          obtain ⟨ys, hys, -, -⟩ := mapM_ok_of_all
            (fun x => (do
              let d ← pySub x (some
                (((n₀ :: rest).map (fun n => n.score.getD 0)).sum /
                  ((((n₀ :: rest).map (fun n => n.score.getD 0)).map some).length : ℚ)))
              pure (d * d) : Except PyErr ℚ))
            (((n₀ :: rest).map (fun n => n.score.getD 0)).map some)
            (fun x hx => by
              obtain ⟨v, hv, hveq⟩ := List.mem_map.mp hx
              rw [← hveq]
              exact ⟨_, rfl⟩)
          exact ⟨_, _, by
            show Except.bind (pySum ((n₀ :: rest).map RNode.score)) _ = _
            rw [hmap, pySum_map_some, exbind_ok2]
            show (List.mapM
                (fun x : Option ℚ => do
                  let d ← pySub x (some
                    (((n₀ :: rest).map (fun n : RNode => n.score.getD 0)).sum /
                      ((((n₀ :: rest).map (fun n : RNode => n.score.getD 0)).map some).length : ℚ)))
                  pure (d * d))
                (((n₀ :: rest).map (fun n : RNode => n.score.getD 0)).map some) >>=
              fun sqs : List ℚ => pure
                (some (((n₀ :: rest).map (fun n : RNode => n.score.getD 0)).sum /
                    ((((n₀ :: rest).map (fun n : RNode => n.score.getD 0)).map some).length : ℚ) -
                  3 * sqrtFn (sqs.sum /
                    ((((n₀ :: rest).map (fun n : RNode => n.score.getD 0)).map some).length : ℚ))),
                 some (((n₀ :: rest).map (fun n : RNode => n.score.getD 0)).sum /
                    ((((n₀ :: rest).map (fun n : RNode => n.score.getD 0)).map some).length : ℚ) +
                  3 * sqrtFn (sqs.sum /
                    ((((n₀ :: rest).map (fun n : RNode => n.score.getD 0)).map some).length : ℚ))))) = _
            rw [hys, exbind_ok]
            rfl⟩

/-- In the distance-based variant, a `None` score makes the `sum()` of the
mean computation raise `TypeError`. -/
theorem listMinMax_none_true (sqrtFn : ℚ → ℚ) (nodes : List RNode)
    (h : ∃ n ∈ nodes, n.score = none) :
    listMinMax true sqrtFn nodes = .error .typeError := by
  cases nodes with
  | nil =>
      rcases h with ⟨n, hn, -⟩
      cases hn
  | cons n₀ rest =>
      have hwit : ∃ x ∈ (n₀ :: rest).map RNode.score, x = none := by
        rcases h with ⟨n, hn, hns⟩
        exact ⟨n.score, List.mem_map.mpr ⟨n, hn, rfl⟩, hns⟩
      show Except.bind (pySum ((n₀ :: rest).map RNode.score)) _ = _
      rw [pySum_has_none _ hwit]
      rfl

/-- The degenerate singleton: `min([None])`/`max([None])` compare nothing, so
the bounds come back `(None, None)` without raising. -/
theorem listMinMax_singleton_none (sqrtFn : ℚ → ℚ) (n' : RNode)
    (h : n'.score = none) :
    listMinMax false sqrtFn [n'] = .ok (none, none) := by
  show (pyMin ([n'].map RNode.score) >>= fun mn =>
      pyMax ([n'].map RNode.score) >>= fun mx => pure (mn, mx)) = _
  rw [show ([n'].map RNode.score) = [none] by rw [List.map_cons, List.map_nil, h]]
  rw [show pyMin [none] = Except.ok none from rfl, exbind_ok]
  rw [show pyMax [none] = Except.ok none from rfl, exbind_ok]
  rfl

/-- In min/max mode, a `None` score either leaves the degenerate singleton
`[None]` (whose `min`/`max` need no comparison) or raises `TypeError`. -/
theorem listMinMax_none_false (sqrtFn : ℚ → ℚ) (nodes : List RNode)
    (h : ∃ n ∈ nodes, n.score = none) :
    (∃ n' : RNode, nodes = [n'] ∧ n'.score = none ∧
      listMinMax false sqrtFn nodes = .ok (none, none)) ∨
    listMinMax false sqrtFn nodes = .error .typeError := by
  cases nodes with
  | nil =>
      rcases h with ⟨n, hn, -⟩
      cases hn
  | cons n₀ rest =>
      have hwit : ∃ x ∈ (n₀ :: rest).map RNode.score, x = none := by
        rcases h with ⟨n, hn, hns⟩
        exact ⟨n.score, List.mem_map.mpr ⟨n, hn, rfl⟩, hns⟩
      rcases pyMin_has_none ((n₀ :: rest).map RNode.score) hwit with ⟨hshape, -⟩ | herr
      · left
        have hr : rest = [] := by
          have h1 := congrArg List.length hshape
          rw [List.length_map, List.length_cons, List.length_singleton] at h1
          have h2 : rest.length = 0 := by omega
          exact List.length_eq_zero.mp h2
        subst hr
        have hn₀ : n₀.score = none := by
          simp at hshape
          exact hshape
        exact ⟨n₀, rfl, hn₀, listMinMax_singleton_none sqrtFn n₀ hn₀⟩
      · refine Or.inr ?_
        show Except.bind (pyMin ((n₀ :: rest).map RNode.score)) _ = _
        rw [herr]
        rfl

/-- Scaling with coinciding `None` bounds raises `TypeError`
(`None == None` is true, then `None > 0` raises). -/
theorem normalize_none_none_err (s : Option ℚ) :
    normalizeWithBounds none none s = .error .typeError := rfl

/-- Scaling a set score between set bounds succeeds. -/
theorem normalize_some_some_ok (mn mx v : ℚ) :
    ∃ r, normalizeWithBounds (some mn) (some mx) (some v) = .ok r := by
  by_cases h : mx = mn
  · subst h
    exact ⟨if 0 < mx then 1 else 0, normalize_eq_bounds mx (some v)⟩
  · refine ⟨(v - mn) / (mx - mn), ?_⟩
    simp [normalizeWithBounds, pyEqO, h, pySub, exbind_ok]

theorem pyIndex_ok (l : List ℚ) (i : ℕ) (h : i < l.length) :
    ∃ w, pyIndex l i = .ok w := by
  cases hg : l.get? i with
  | none =>
      rw [List.get?_eq_none] at hg
      exact absurd hg (not_le.mpr h)
  | some w =>
      refine ⟨w, ?_⟩
      unfold pyIndex
      rw [hg]

theorem pyDivCount_ok (v : ℚ) (n : ℕ) (h : n ≠ 0) :
    pyDivCount v n = .ok (v / (n : ℚ)) := by
  unfold pyDivCount
  rw [if_neg h]

/-- Rescaling an all-set list against set bounds succeeds when the weight
index is in range and the query count nonzero. -/
theorem scaleList_all_some_ok (weights : List ℚ) (nq : ℕ) (mn mx : ℚ)
    (idx : ℕ) (nodes : List RNode) (hall : ∀ n ∈ nodes, n.score.isSome)
    (hidx : idx < weights.length) (hnq : nq ≠ 0) :
    ∃ out, scaleList weights nq (some mn, some mx) idx nodes = .ok out := by
  obtain ⟨ys, hys, -, -⟩ := mapM_ok_of_all
    (fun n => (do
      let v ← normalizeWithBounds (some mn) (some mx) n.score
      let w ← pyIndex weights idx
      let v2 ← pyDivCount (v * w) nq
      pure { n with score := some v2 } : Except PyErr RNode))
    nodes
    (by
      intro n hn
      obtain ⟨v, hv⟩ := Option.isSome_iff_exists.mp (hall n hn)
      obtain ⟨r, hr⟩ := normalize_some_some_ok mn mx v
      obtain ⟨w, hw⟩ := pyIndex_ok weights idx hidx
      have hch : (normalizeWithBounds (some mn) (some mx) n.score >>= fun r' =>
          pyIndex weights idx >>= fun w' =>
          pyDivCount (r' * w') nq >>= fun v2 =>
          pure { n with score := some v2 } : Except PyErr RNode) =
          .ok { n with score := some (r * w / (nq : ℚ)) } := by
        rw [hv, hr, exbind_ok, hw, exbind_ok, pyDivCount_ok _ _ hnq, exbind_ok]
        rfl
      exact ⟨_, hch⟩)
  exact ⟨ys, hys⟩

/-- Rescaling the degenerate singleton whose `None` score produced the
`(None, None)` bounds raises `TypeError` at `max_score > 0`. -/
theorem scaleList_none_err (weights : List ℚ) (nq : ℕ) (idx : ℕ) (n' : RNode)
    (h : n'.score = none) :
    scaleList weights nq (none, none) idx [n'] = .error .typeError := by
  have hch : (normalizeWithBounds none none n'.score >>= fun r' =>
      pyIndex weights idx >>= fun w' =>
      pyDivCount (r' * w') nq >>= fun v2 =>
      pure { n' with score := some v2 } : Except PyErr RNode) =
      .error .typeError := by
    rw [h, normalize_none_none_err]
    rfl
  exact mapM_error_of_mem _ [n']
    (fun x hx => by
      rw [List.mem_singleton] at hx
      subst hx
      exact Or.inr hch)
    ⟨n', List.mem_singleton.mpr rfl, hch⟩

/-- `_relative_score_fusion` (either variant) raises `TypeError` on every
result mapping containing a `None` score, as long as the retriever indices
are within the weight list and the query count is nonzero (so that no
`IndexError`/`ZeroDivisionError` preempts it). -/
theorem relative_none_typeError (dist_based : Bool) (sqrtFn : ℚ → ℚ)
    (weights : List ℚ) (num_queries : ℕ) (results : Results)
    (hnone : ∃ kn ∈ results, ∃ n ∈ kn.2, n.score = none)
    (hw : ∀ kn ∈ results, kn.1.2 < weights.length)
    (hnq : num_queries ≠ 0) :
    relativeScoreFusion dist_based sqrtFn weights num_queries results =
      .error .typeError := by
  have hclass : ∀ kn ∈ results,
      (∃ p, listMinMax dist_based sqrtFn kn.2 = .ok p) ∨
        listMinMax dist_based sqrtFn kn.2 = .error .typeError := by
    intro kn hkn
    by_cases hall : ∀ n ∈ kn.2, n.score.isSome
    · obtain ⟨mn, mx, hres⟩ := listMinMax_all_some_ok dist_based sqrtFn kn.2 hall
      exact Or.inl ⟨_, hres⟩
    · push_neg at hall
      obtain ⟨n, hn, hns⟩ := hall
      have hnone' : ∃ n ∈ kn.2, n.score = none :=
        ⟨n, hn, Option.not_isSome_iff_eq_none.mp hns⟩
      cases dist_based with
      | true => exact Or.inr (listMinMax_none_true sqrtFn kn.2 hnone')
      | false =>
          rcases listMinMax_none_false sqrtFn kn.2 hnone' with ⟨n', -, -, hok⟩ | herr'
          · exact Or.inl ⟨_, hok⟩
          · exact Or.inr herr'
  by_cases herr : ∃ kn ∈ results, listMinMax dist_based sqrtFn kn.2 = .error .typeError
  · have h1 : results.mapM (fun kn => listMinMax dist_based sqrtFn kn.2) =
        .error .typeError :=
      mapM_error_of_mem (fun kn => listMinMax dist_based sqrtFn kn.2) results hclass herr
    show Except.bind (results.mapM (fun kn => listMinMax dist_based sqrtFn kn.2)) _ = _
    rw [h1]
    rfl
  · have hallok : ∀ kn ∈ results, ∃ p, listMinMax dist_based sqrtFn kn.2 = .ok p :=
      fun kn hkn => (hclass kn hkn).resolve_right (fun he => herr ⟨kn, hkn, he⟩)
    obtain ⟨mnmx, hmnmx, hzip, hzmem⟩ :=
      mapM_ok_of_all (fun kn => listMinMax dist_based sqrtFn kn.2) results hallok
    have hclass2 : ∀ p ∈ results.zip mnmx,
        (∃ y, (do
            let nodes2 ← scaleList weights num_queries p.2 p.1.1.2 p.1.2
            pure (p.1.1, nodes2) : Except PyErr ((String × ℕ) × List RNode)) = .ok y) ∨
          (do
            let nodes2 ← scaleList weights num_queries p.2 p.1.1.2 p.1.2
            pure (p.1.1, nodes2) : Except PyErr ((String × ℕ) × List RNode)) =
            .error .typeError := by
      intro p hp
      have hp1 : p.1 ∈ results := (List.of_mem_zip hp).1
      have hmmp : listMinMax dist_based sqrtFn p.1.2 = .ok p.2 := hzip p hp
      by_cases hall : ∀ n ∈ p.1.2, n.score.isSome
      · obtain ⟨mn, mx, hres⟩ := listMinMax_all_some_ok dist_based sqrtFn p.1.2 hall
        rw [hres] at hmmp
        injection hmmp with hh
        obtain ⟨out, hout⟩ := scaleList_all_some_ok weights num_queries mn mx
          p.1.1.2 p.1.2 hall (hw p.1 hp1) hnq
        refine Or.inl ⟨(p.1.1, out), ?_⟩
        show Except.bind (scaleList weights num_queries p.2 p.1.1.2 p.1.2) _ = _
        rw [← hh, hout]
        rfl
      · push_neg at hall
        obtain ⟨n, hn, hns⟩ := hall
        have hnone' : ∃ n ∈ p.1.2, n.score = none :=
          ⟨n, hn, Option.not_isSome_iff_eq_none.mp hns⟩
        refine Or.inr ?_
        cases dist_based with
        | true =>
            rw [listMinMax_none_true sqrtFn p.1.2 hnone'] at hmmp
            cases hmmp
        | false =>
            rcases listMinMax_none_false sqrtFn p.1.2 hnone' with
              ⟨n', hshape, hns', hok⟩ | herr'
            · rw [hok] at hmmp
              injection hmmp with hh
              show Except.bind (scaleList weights num_queries p.2 p.1.1.2 p.1.2) _ = _
              rw [← hh, hshape,
                scaleList_none_err weights num_queries p.1.1.2 n' hns']
              rfl
            · rw [herr'] at hmmp
              cases hmmp
    obtain ⟨kn₀, hkn₀, n₀, hn₀, hn₀none⟩ := hnone
    obtain ⟨mm₀, hmem₀⟩ := hzmem kn₀ hkn₀
    have hmm₀ : listMinMax dist_based sqrtFn kn₀.2 = .ok mm₀ := hzip (kn₀, mm₀) hmem₀
    have herr₀ : (do
        let nodes2 ← scaleList weights num_queries mm₀ kn₀.1.2 kn₀.2
        pure (kn₀.1, nodes2) : Except PyErr ((String × ℕ) × List RNode)) =
        .error .typeError := by
      have hn' : ∃ n ∈ kn₀.2, n.score = none := ⟨n₀, hn₀, hn₀none⟩
      cases dist_based with
      | true =>
          rw [listMinMax_none_true sqrtFn kn₀.2 hn'] at hmm₀
          cases hmm₀
      | false =>
          rcases listMinMax_none_false sqrtFn kn₀.2 hn' with
            ⟨n', hshape, hns', hok⟩ | herr'
          · rw [hok] at hmm₀
            injection hmm₀ with hh
            show Except.bind (scaleList weights num_queries mm₀ kn₀.1.2 kn₀.2) _ = _
            rw [← hh, hshape,
              scaleList_none_err weights num_queries kn₀.1.2 n' hns']
            rfl
          · rw [herr'] at hmm₀
            cases hmm₀
    have h2 : (results.zip mnmx).mapM (fun p => (do
        let nodes2 ← scaleList weights num_queries p.2 p.1.1.2 p.1.2
        pure (p.1.1, nodes2) : Except PyErr ((String × ℕ) × List RNode))) =
        .error .typeError :=
      mapM_error_of_mem _ (results.zip mnmx) hclass2 ⟨(kn₀, mm₀), hmem₀, herr₀⟩
    show Except.bind (results.mapM (fun kn => listMinMax dist_based sqrtFn kn.2)) _ = _
    rw [hmnmx, exbind_ok2]
    show Except.bind ((results.zip mnmx).mapM (fun p => do
        let nodes2 ← scaleList weights num_queries p.2 p.1.1.2 p.1.2
        pure (p.1.1, nodes2))) _ = _
    rw [h2]
    rfl

/-- Lookup after an insert: the inserted key reads back the new value, other
keys are untouched. -/
theorem dictGet?_dictPut [DecidableEq κ] (d : List (κ × ν)) (k c : κ) (v : ν) :
    dictGet? (dictPut d k v) c = if c = k then some v else dictGet? d c := by
  induction d with
  | nil =>
      simp only [dictPut, dictGet?]
      by_cases h : c = k
      · rw [if_pos h.symm, if_pos h]
      · rw [if_neg (fun hh : k = c => h hh.symm), if_neg h]
  | cons e rest ih =>
      simp only [dictPut]
      by_cases h1 : e.1 = k
      · rw [if_pos h1]
        simp only [dictGet?]
        by_cases h2 : c = k
        · rw [if_pos h2.symm, if_pos h2]
        · rw [if_neg (fun hh : k = c => h2 hh.symm), if_neg h2,
            if_neg (fun hh : e.1 = c => h2 (hh ▸ h1))]
      · rw [if_neg h1]
        simp only [dictGet?]
        by_cases h2 : e.1 = c
        · rw [if_pos h2, if_neg (fun hh : c = k => h1 (h2.trans hh)), if_pos h2]
        · rw [if_neg h2, ih, if_neg h2]

theorem pyGt_noneL (y : Option ℚ) : pyGt none y = .error .typeError := by
  cases y <;> rfl

/-- A fresh content key inserts the node unchanged. -/
theorem simpleStep_none_get (d : List (String × RNode)) (n : RNode)
    (hget : dictGet? d n.content = none) :
    simpleStep d n = .ok (dictPut d n.content n) := by
  unfold simpleStep
  rw [hget]
  rfl

/-- Merging against an existing entry raises `TypeError` when either score
is `None` (Python `max(None, _)`). -/
theorem simpleStep_err_of_none (d : List (String × RNode)) (n ex : RNode)
    (hget : dictGet? d n.content = some ex)
    (h : ex.score = none ∨ n.score = none) :
    simpleStep d n = .error .typeError := by
  unfold simpleStep
  rw [hget]
  show (pyGt ex.score n.score >>= fun b =>
      pure (dictPut d n.content
        { ex with score := if b then ex.score else n.score })) = _
  rcases h with h | h
  · rw [h, pyGt_noneL]
    rfl
  · rw [h, pyGt_none_right]
    rfl

/-- A successful merge against an existing entry rewrites that key. -/
theorem simpleStep_some_shape (d : List (String × RNode)) (n ex : RNode)
    (d' : List (String × RNode)) (hget : dictGet? d n.content = some ex)
    (h : simpleStep d n = .ok d') :
    ∃ s, d' = dictPut d n.content { ex with score := s } := by
  have h2 := h
  unfold simpleStep at h2
  rw [hget] at h2
  have h' : (pyGt ex.score n.score >>= fun b =>
      pure (dictPut d n.content
        { ex with score := if b then ex.score else n.score })) = .ok d' := h2
  cases hb : pyGt ex.score n.score with
  | error e =>
      rw [hb] at h'
      have h'' : (Except.error e : Except PyErr (List (String × RNode))) = .ok d' := h'
      cases h''
  | ok b =>
      rw [hb] at h'
      have h'' : (Except.ok (dictPut d n.content
          { ex with score := if b then ex.score else n.score }) :
          Except PyErr (List (String × RNode))) = .ok d' := h'
      injection h'' with h''
      exact ⟨if b then ex.score else n.score, h''.symm⟩

/-- One merge step keeps every present key present. -/
theorem simpleStep_preserves_key (d : List (String × RNode)) (n : RNode)
    (d' : List (String × RNode)) (h : simpleStep d n = .ok d')
    (c : String) (ex : RNode) (hget : dictGet? d c = some ex) :
    ∃ ex', dictGet? d' c = some ex' := by
  cases hg : dictGet? d n.content with
  | none =>
      rw [simpleStep_none_get d n hg] at h
      injection h with h
      rw [← h, dictGet?_dictPut]
      by_cases hc : c = n.content
      · rw [if_pos hc]
        exact ⟨n, rfl⟩
      · rw [if_neg hc]
        exact ⟨ex, hget⟩
  | some ex0 =>
      obtain ⟨s, hs⟩ := simpleStep_some_shape d n ex0 d' hg h
      rw [hs, dictGet?_dictPut]
      by_cases hc : c = n.content
      · rw [if_pos hc]
        exact ⟨_, rfl⟩
      · rw [if_neg hc]
        exact ⟨ex, hget⟩

/-- The whole merge fold keeps every present key present. -/
theorem foldlM_simpleStep_key (l : List RNode) :
    ∀ (d d' : List (String × RNode)) (c : String) (ex : RNode),
      l.foldlM simpleStep d = .ok d' → dictGet? d c = some ex →
      ∃ ex', dictGet? d' c = some ex' := by
  induction l with
  | nil =>
      intro d d' c ex h hget
      have h' : (Except.ok d : Except PyErr (List (String × RNode))) = .ok d' := h
      injection h' with h'
      exact ⟨ex, h' ▸ hget⟩
  | cons n t ih =>
      intro d d' c ex h hget
      rw [List.foldlM_cons] at h
      cases hs : simpleStep d n with
      | error e =>
          rw [hs] at h
          have h' : (Except.error e : Except PyErr (List (String × RNode))) = .ok d' := h
          cases h'
      | ok d₁ =>
          rw [hs] at h
          have h' : t.foldlM simpleStep d₁ = .ok d' := h
          obtain ⟨ex₁, hex₁⟩ := simpleStep_preserves_key d n d₁ hs c ex hget
          exact ih d₁ d' c ex₁ h' hex₁

/-- A key whose stored score is `None` forces the merge fold to fail as soon
as that content is merged again; if the fold nevertheless succeeds, the key
still holds a `None` score. -/
theorem foldlM_simpleStep_none_entry (l : List RNode) :
    ∀ (d d' : List (String × RNode)) (c : String) (ex : RNode),
      l.foldlM simpleStep d = .ok d' → dictGet? d c = some ex → ex.score = none →
      ∃ ex', dictGet? d' c = some ex' ∧ ex'.score = none := by
  induction l with
  | nil =>
      intro d d' c ex h hget hnone
      have h' : (Except.ok d : Except PyErr (List (String × RNode))) = .ok d' := h
      injection h' with h'
      exact ⟨ex, h' ▸ hget, hnone⟩
  | cons n t ih =>
      intro d d' c ex h hget hnone
      rw [List.foldlM_cons] at h
      by_cases hc : n.content = c
      · have hgetn : dictGet? d n.content = some ex := by
          rw [hc]
          exact hget
        rw [simpleStep_err_of_none d n ex hgetn (Or.inl hnone)] at h
        have h' : (Except.error PyErr.typeError :
            Except PyErr (List (String × RNode))) = .ok d' := h
        cases h'
      · cases hs : simpleStep d n with
        | error e =>
            rw [hs] at h
            have h' : (Except.error e : Except PyErr (List (String × RNode))) = .ok d' := h
            cases h'
        | ok d₁ =>
            rw [hs] at h
            have h' : t.foldlM simpleStep d₁ = .ok d' := h
            have hd₁ : dictGet? d₁ c = some ex := by
              cases hg : dictGet? d n.content with
              | none =>
                  rw [simpleStep_none_get d n hg] at hs
                  injection hs with hs
                  rw [← hs, dictGet?_dictPut,
                    if_neg (fun hh : c = n.content => hc hh.symm)]
                  exact hget
              | some ex0 =>
                  obtain ⟨s, hsp⟩ := simpleStep_some_shape d n ex0 d₁ hg hs
                  rw [hsp, dictGet?_dictPut,
                    if_neg (fun hh : c = n.content => hc hh.symm)]
                  exact hget
            exact ih d₁ d' c ex h' hd₁ hnone

/-- The merge fold either succeeds or raises `TypeError`: the score
comparison is its only fallible operation. -/
theorem foldlM_simpleStep_ok_or_type (l : List RNode) :
    ∀ d : List (String × RNode), (∃ d', l.foldlM simpleStep d = .ok d') ∨
      l.foldlM simpleStep d = .error .typeError := by
  induction l with
  | nil =>
      intro d
      exact Or.inl ⟨d, rfl⟩
  | cons n t ih =>
      intro d
      cases hg : dictGet? d n.content with
      | none =>
          have hred : (n :: t).foldlM simpleStep d =
              t.foldlM simpleStep (dictPut d n.content n) := by
            rw [List.foldlM_cons, simpleStep_none_get d n hg, exbind_ok]
          rw [hred]
          exact ih _
      | some ex =>
          cases hes : ex.score with
          | none =>
              refine Or.inr ?_
              rw [List.foldlM_cons, simpleStep_err_of_none d n ex hg (Or.inl hes)]
              rfl
          | some a =>
              cases hns : n.score with
              | none =>
                  refine Or.inr ?_
                  rw [List.foldlM_cons, simpleStep_err_of_none d n ex hg (Or.inr hns)]
                  rfl
              | some b =>
                  have hok : ∃ d₁, simpleStep d n = .ok d₁ := ⟨_, by
                    unfold simpleStep
                    rw [hg]
                    show (pyGt ex.score n.score >>= fun bb =>
                        pure (dictPut d n.content
                          { ex with score := if bb then ex.score else n.score })) = _
                    rw [hes, hns]
                    rw [show pyGt (some a) (some b) = Except.ok (decide (b < a)) from rfl,
                      exbind_ok]
                    rfl⟩
                  obtain ⟨d₁, hd₁⟩ := hok
                  have hred : (n :: t).foldlM simpleStep d = t.foldlM simpleStep d₁ := by
                    rw [List.foldlM_cons, hd₁, exbind_ok]
                  rw [hred]
                  exact ih _

/-- Splitting a successful merge fold at an append boundary. -/
theorem foldlM_append_ok (l₁ l₂ : List RNode) (d d' : List (String × RNode))
    (h : (l₁ ++ l₂).foldlM simpleStep d = .ok d') :
    ∃ dm, l₁.foldlM simpleStep d = .ok dm ∧ l₂.foldlM simpleStep dm = .ok d' := by
  rw [List.foldlM_append] at h
  cases h1 : l₁.foldlM simpleStep d with
  | error e =>
      rw [h1] at h
      have h' : (Except.error e : Except PyErr (List (String × RNode))) = .ok d' := h
      cases h'
  | ok dm =>
      rw [h1] at h
      exact ⟨dm, rfl, h⟩

/-- Splitting a successful merge fold at a cons. -/
theorem foldlM_cons_ok (x : RNode) (l : List RNode) (d d' : List (String × RNode))
    (h : (x :: l).foldlM simpleStep d = .ok d') :
    ∃ dm, simpleStep d x = .ok dm ∧ l.foldlM simpleStep dm = .ok d' := by
  rw [List.foldlM_cons] at h
  cases h1 : simpleStep d x with
  | error e =>
      rw [h1] at h
      have h' : (Except.error e : Except PyErr (List (String × RNode))) = .ok d' := h
      cases h'
  | ok dm =>
      rw [h1] at h
      exact ⟨dm, rfl, h⟩

/-- The nested per-list fold of `_simple_fusion` equals one fold over the
concatenated traversal. -/
theorem foldlM_lists_eq_flat (results : Results) :
    ∀ d : List (String × RNode),
      results.foldlM (fun d kn => kn.2.foldlM simpleStep d) d =
        (allNodesOf results).foldlM simpleStep d := by
  induction results with
  | nil =>
      intro d
      rfl
  | cons kn rest ih =>
      intro d
      rw [allNodesOf_cons, List.foldlM_append, List.foldlM_cons]
      cases h1 : kn.2.foldlM simpleStep d with
      | error e => rfl
      | ok d₁ =>
          rw [exbind_ok, exbind_ok]
          exact ih d₁

/-- `_simple_fusion` raises `TypeError` on every result mapping whose
concatenated traversal repeats a content with a `None` score on either the
earlier or the later occurrence. -/
theorem simple_dup_none_typeError (results : Results) (l₁ l₂ l₃ : List RNode)
    (a b : RNode) (hflat : allNodesOf results = l₁ ++ a :: (l₂ ++ b :: l₃))
    (hcontent : a.content = b.content) (hscore : a.score = none ∨ b.score = none) :
    simpleFusion results = .error .typeError := by
  have hfold : (allNodesOf results).foldlM simpleStep
      ([] : List (String × RNode)) = .error .typeError := by
    rcases foldlM_simpleStep_ok_or_type (allNodesOf results) [] with ⟨df, hdf⟩ | herr
    · exfalso
      rw [hflat] at hdf
      obtain ⟨dA, hA, hrest⟩ := foldlM_append_ok l₁ (a :: (l₂ ++ b :: l₃)) [] df hdf
      obtain ⟨dB, haB, hrest2⟩ := foldlM_cons_ok a (l₂ ++ b :: l₃) dA df hrest
      obtain ⟨dC, hC, hrest3⟩ := foldlM_append_ok l₂ (b :: l₃) dB df hrest2
      obtain ⟨dD, hbD, -⟩ := foldlM_cons_ok b l₃ dC df hrest3
      rcases hscore with hna | hnb
      · have hentryB : ∃ exB, dictGet? dB a.content = some exB ∧ exB.score = none := by
          cases hg : dictGet? dA a.content with
          | none =>
              rw [simpleStep_none_get dA a hg] at haB
              injection haB with haB
              refine ⟨a, ?_, hna⟩
              rw [← haB, dictGet?_dictPut, if_pos rfl]
          | some exA =>
              rw [simpleStep_err_of_none dA a exA hg (Or.inr hna)] at haB
              cases haB
        obtain ⟨exB, hgB, hsB⟩ := hentryB
        obtain ⟨exC, hgC, hsC⟩ :=
          foldlM_simpleStep_none_entry l₂ dB dC a.content exB hC hgB hsB
        have hgCb : dictGet? dC b.content = some exC := by
          rw [← hcontent]
          exact hgC
        rw [simpleStep_err_of_none dC b exC hgCb (Or.inl hsC)] at hbD
        cases hbD
      · have hkeyB : ∃ exB, dictGet? dB a.content = some exB := by
          cases hg : dictGet? dA a.content with
          | none =>
              rw [simpleStep_none_get dA a hg] at haB
              injection haB with haB
              refine ⟨a, ?_⟩
              rw [← haB, dictGet?_dictPut, if_pos rfl]
          | some exA =>
              obtain ⟨s, hsp⟩ := simpleStep_some_shape dA a exA dB hg haB
              refine ⟨{ exA with score := s }, ?_⟩
              rw [hsp, dictGet?_dictPut, if_pos rfl]
        obtain ⟨exB, hgB⟩ := hkeyB
        obtain ⟨exC, hgC⟩ := foldlM_simpleStep_key l₂ dB dC a.content exB hC hgB
        have hgCb : dictGet? dC b.content = some exC := by
          rw [← hcontent]
          exact hgC
        rw [simpleStep_err_of_none dC b exC hgCb (Or.inr hnb)] at hbD
        cases hbD
    · exact herr
  show Except.bind (results.foldlM (fun d kn => kn.2.foldlM simpleStep d)
      ([] : List (String × RNode))) _ = _
  rw [foldlM_lists_eq_flat results ([] : List (String × RNode)), hfold]
  rfl

/-- C3 (amended): reciprocal-rank fusion treats a `None` score as `0.0` when
ranking — on every result mapping, replacing each `None` score by a set `0.0`
leaves its output unchanged, and it completes without raising.  The other
strategies do not tolerate `None`: on every mapping in which some node's
score is `None`, `_relative_score_fusion` — in the plain `relative_score`
mode and in the `dist_based_score` mode alike — raises a `TypeError`,
provided each result key's retriever index is within the weight list and the
query count is nonzero (so no `IndexError`/`ZeroDivisionError` preempts it);
and `_simple_fusion` raises a `TypeError` on every mapping whose concatenated
node traversal repeats a content with a `None` score at the earlier or the
later occurrence. -/
theorem C3_none_scores_amended :
    (∀ results : Results,
      reciprocalRerankFusion (zeroNoneResults results) =
        reciprocalRerankFusion results) ∧
    (∀ (dist_based : Bool) (sqrtFn : ℚ → ℚ) (weights : List ℚ)
        (num_queries : ℕ) (results : Results),
      (∃ kn ∈ results, ∃ n ∈ kn.2, n.score = none) →
      (∀ kn ∈ results, kn.1.2 < weights.length) →
      num_queries ≠ 0 →
      relativeScoreFusion dist_based sqrtFn weights num_queries results =
        .error .typeError) ∧
    (∀ (results : Results) (l₁ l₂ l₃ : List RNode) (a b : RNode),
      allNodesOf results = l₁ ++ a :: (l₂ ++ b :: l₃) →
      a.content = b.content →
      (a.score = none ∨ b.score = none) →
      simpleFusion results = .error .typeError) :=
  ⟨fun results => by rw [rrf_output_form, rrf_output_form, fusedOf_zeroNone],
   relative_none_typeError,
   simple_dup_none_typeError⟩

/-- C3 witness: the amended theorem applied to concrete mappings with a
`None` score — the distance-based variant, the plain min/max variant, and
the duplicate-content mapping of simple fusion all return `TypeError`. -/
theorem C3_none_scores_amended_witness :
    relativeScoreFusion true (fun x => x) [1] 4
      [(("q", 0), [⟨"a", none⟩, ⟨"a", some 1⟩])] = .error .typeError ∧
    relativeScoreFusion false (fun x => x) [1] 4
      [(("q", 0), [⟨"a", none⟩, ⟨"a", some 1⟩])] = .error .typeError ∧
    simpleFusion [(("q", 0), [⟨"x", none⟩, ⟨"x", some 1⟩])] =
      .error .typeError :=
  ⟨C3_none_scores_amended.2.1 true (fun x => x) [1] 4
      [(("q", 0), [⟨"a", none⟩, ⟨"a", some 1⟩])]
      ⟨(("q", 0), [⟨"a", none⟩, ⟨"a", some 1⟩]), by decide,
        ⟨"a", none⟩, by decide, rfl⟩
      (by decide) (by decide),
   C3_none_scores_amended.2.1 false (fun x => x) [1] 4
      [(("q", 0), [⟨"a", none⟩, ⟨"a", some 1⟩])]
      ⟨(("q", 0), [⟨"a", none⟩, ⟨"a", some 1⟩]), by decide,
        ⟨"a", none⟩, by decide, rfl⟩
      (by decide) (by decide),
   C3_none_scores_amended.2.2 [(("q", 0), [⟨"x", none⟩, ⟨"x", some 1⟩])]
      [] [] [] ⟨"x", none⟩ ⟨"x", some 1⟩ rfl rfl (Or.inl rfl)⟩

/-- C3 counterexample: relative-score fusion on a mapping containing a node
with a `None` score raises a `TypeError` (Python `None > 0`) instead of
treating the score as `0.0` and completing — the claim asserts every fusion
mode completes without raising. -/
theorem C3_counterexample :
    relativeScoreFusion false (fun x => x) [1] 4
      [(("q", 0), [⟨"b", none⟩])] = .error .typeError ∧
    (relativeScoreFusion false (fun x => x) [1] 4
      [(("q", 0), [⟨"b", none⟩])]).isOk = false := ⟨rfl, rfl⟩

end PaiRag
